import Mathlib

/-!
Shallow embedding of `core/handler/loadbalance_handler.go` (package `handler`)
of the go-chassis load-balancing handler, together with proofs about the
retry orchestrator, the endpoint selector and the session resolver.

External collaborators that are declared in other packages of the repository
(configuration accessors, the strategy registry, the selection engine, the
chain, `writeErr`) are modelled from the specification's interface contracts;
every such definition is marked `Modelled from the spec:` in its doc comment.
Go machine integers never overflow here (they are attempt counters bounded by
small configuration values), so they are modelled as `Nat`.
-/

namespace LB

/-- Go `error` values as they matter to this handler: a plain error carrying a
message (this also covers `loadbalancer.LBError`, whose observable content is
its message), or an error wrapped by `backoff.Permanent`. -/
inductive GoError where
  | mk (msg : String)
  | permanent (e : GoError)
deriving Repr, DecidableEq

/-- `err.Error()`: the message of an error (`backoff.Permanent` forwards the
inner error's message). -/
def GoError.message : GoError → String
  | .mk m => m
  | .permanent e => e.message

/-- `invocation.Response`: only the `Err` field is read by this handler. -/
structure Response where
  err : Option GoError
deriving Repr, DecidableEq

/-- The shape of `invocation.Invocation.Args` as far as `getSessionID` cares:
either a transport-native `*rest.Request` (carrying cookies) or anything
else (the `default` branch of the type switch). -/
inductive Args where
  | restRequest (cookies : List (String × String))
  | other
deriving Repr, DecidableEq

/-- `invocation.Invocation`: the fields of the Call Context read or written by
the load-balancing handler.  The Go `Ctx` is modelled by the metadata entries
readable through `session.GetContextMetadata`. -/
structure Invocation where
  sourceMicroService : String
  microServiceName : String
  sourceServiceID : String
  strategy : String
  protocol : String
  filters : List String
  routeTags : List (String × String)
  endpoint : String
  args : Args
  ctxMetadata : List (String × String)
deriving Repr, DecidableEq

/-- `registry.MicroServiceInstance` as read by `getEndpoint`: the
protocol-to-endpoint map (`EndpointsMap`, a Go map rendered as an association
list whose order stands for Go's unspecified iteration order) and the
instance's `DefaultProtocol`. -/
structure Instance where
  endpointsMap : List (String × String)
  defaultProtocol : String
deriving Repr, DecidableEq

/-- Go map lookup `m[k]` on the association-list rendering: first entry whose
key matches. -/
def lookupAssoc (l : List (String × String)) (k : String) : Option String :=
  match l with
  | [] => none
  | kv :: rest => if kv.1 = k then some kv.2 else lookupAssoc rest k

/-- Modelled from the spec: the session-stickiness cookie key
(`common.LBSessionID`), named `lb-session-id` by the spec. -/
def lbSessionID : String := "lb-session-id"

/-- Modelled from the spec: the name of the session-stickiness strategy
(`loadbalancer.StrategySessionStickiness`). -/
def strategySessionStickiness : String := "SessionStickiness"

/-- Modelled from the spec: `(*rest.Request).GetCookie` reads a named cookie
value from the transport-native request, empty when absent. -/
def getCookie (cookies : List (String × String)) (k : String) : String :=
  (lookupAssoc cookies k).getD ""

/-- Modelled from the spec: `session.GetContextMetadata(ctx, key)` reads a
same-named entry from generic call metadata, empty when absent. -/
def getContextMetadata (md : List (String × String)) (k : String) : String :=
  (lookupAssoc md k).getD ""

/-- Go's `strings.Split` specialised to a one-character separator, on the
character list of the string: `Split("", sep) = [""]`, and separators at the
ends produce empty fields, exactly as in Go. -/
def splitOnSep (sep : Char) : List Char → List (List Char)
  | [] => [[]]
  | c :: rest =>
    if c = sep then [] :: splitOnSep sep rest
    else
      match splitOnSep sep rest with
      | [] => [[c]]
      | h :: t => (c :: h) :: t

/-- `strings.Split(s, sep)` for a one-character separator. -/
def goSplit (s : String) (sep : Char) : List String :=
  (splitOnSep sep s.data).map (fun l => String.mk l)

/-- `getSessionID` from the source: a cookie read for transport-native
requests, otherwise the second `=`-separated field of the generic metadata
entry; the Go `metadata interface\x7b\x7d` variable collapses to the returned
string. -/
def getSessionID (i : Invocation) : String :=
  match i.args with
  | .restRequest cookies =>
    let value := getCookie cookies lbSessionID
    if value ≠ "" then value else ""
  | .other =>
    let value := getContextMetadata i.ctxMetadata lbSessionID
    if value ≠ "" then
      let cookieKey := goSplit value '='
      if cookieKey.length > 1 then cookieKey.getD 1 "" else ""
    else ""

/-- The argument record passed to `loadbalancer.BuildStrategy` (and consulted
by the selection engine's `Pick`). -/
structure BuildInputs where
  sourceServiceID : String
  microServiceName : String
  protocol : String
  sessionID : String
  filters : List String
  strategy : String
  routeTags : List (String × String)
deriving Repr, DecidableEq

/-- The result of a Go call as this handler can observe it: a runtime panic
(calling a nil function value), an error return, or a normal return. -/
inductive GoResult (α : Type) where
  | crash
  | error (e : GoError)
  | ok (a : α)
deriving Repr, DecidableEq

/-- Modelled from the spec: the environment of external collaborators (§6 of
the spec).  `getStrategyPlugin` collapses the registry's
`lookup(name) → constructor | NotFound` with the immediate `strategyFun()`
call — on `NotFound` the Go handler holds a nil `strategyFun`.  `pick` takes
the sequence number of the selection to model the engine's statefulness
across rounds.  `archaius k` is the configured value at key `k`
(`archaius.GetString k d = (archaius k).getD d`).  `chainResp k` is the
response the `k`-th chain advance hands to its callback (`none` = Go nil),
and `chainIdxAfter k` is the chain's handler index after that advance. -/
structure Env where
  getStrategyName : String → String → String
  getStrategyPlugin : String → Except GoError String
  getServerListFilters : List String
  archaius : String → Option String
  buildStrategy : BuildInputs → Except GoError Unit
  pick : Nat → BuildInputs → Except GoError Instance
  retryEnabled : String → String → Bool
  getRetryOnSame : String → String → Nat
  getRetryOnNext : String → String → Nat
  chainResp : Nat → Option Response
  chainIdxAfter : Nat → Nat

/-- The archaius key `"cse.references." + msName + ".transport"`. -/
def transportKey (ms : String) : String := "cse.references." ++ ms ++ ".transport"

/-- The first half of `getEndpoint`, up to and including `s.Pick()`: pin the
strategy name, resolve the strategy constructor (logging failures and leaving
a nil function behind), default the filters, compute the session token for
the stickiness strategy, build the selection context and pick an instance.
Calling the nil `strategyFun` at the `BuildStrategy` call site is a Go
runtime panic, rendered as `GoResult.crash`.  A `Pick` failure is wrapped
into an `LBError` carrying the underlying message. -/
def selectInstance (env : Env) (n : Nat) (i : Invocation) : Invocation × GoResult Instance :=
  let sname := if i.strategy = "" then env.getStrategyName i.sourceMicroService i.microServiceName
               else i.strategy
  let i1 := { i with strategy := sname }
  let strategyFun : Option String :=
    match env.getStrategyPlugin sname with
    | .ok f => some f
    | .error _ => none
  let i2 := if i1.filters = [] then { i1 with filters := env.getServerListFilters } else i1
  let sessionID := if i2.strategy = strategySessionStickiness then getSessionID i2 else ""
  match strategyFun with
  | none => (i2, .crash)
  | some sval =>
    let inputs : BuildInputs :=
      ⟨i2.sourceServiceID, i2.microServiceName, i2.protocol, sessionID, i2.filters, sval, i2.routeTags⟩
    match env.buildStrategy inputs with
    | .error e => (i2, .error e)
    | .ok _ =>
      match env.pick n inputs with
      | .error e => (i2, .error (GoError.mk e.message))
      | .ok ins => (i2, .ok ins)

/-- Go's `%v` rendering of the entries of a `map[string]string`, in the
association list's order. -/
def goMapEntries : List (String × String) → String
  | [] => ""
  | [kv] => kv.1 ++ ":" ++ kv.2
  | kv :: rest => kv.1 ++ ":" ++ kv.2 ++ " " ++ goMapEntries rest

/-- Go's `%v` rendering of a `map[string]string`. -/
def goMapShow (l : List (String × String)) : String :=
  "map[" ++ goMapEntries l ++ "]"

/-- The message of the protocol-mismatch `LBError` built by `getEndpoint`. -/
def protoErrMsg (p ms : String) (m : List (String × String)) : String :=
  "No available instance support [" ++ p ++ "] protocol," ++ " msName: " ++ ms ++ " " ++ goMapShow m

/-- The protocol `getEndpoint` resolves for invocation `i` and picked
instance `ins`: the requested one; else the configured transport preference,
defaulting to the instance's default protocol; else the first key of the
instance's protocol map (Go: an arbitrary key of the range). -/
def resolvedProto (env : Env) (i : Invocation) (ins : Instance) : String :=
  let p1 := if i.protocol = "" then
              (env.archaius (transportKey i.microServiceName)).getD ins.defaultProtocol
            else i.protocol
  if p1 = "" then
    match ins.endpointsMap with
    | [] => p1
    | kv :: _ => kv.1
  else p1

/-- The second half of `getEndpoint`, after a successful `Pick`: pin the
resolved protocol onto the invocation and look its endpoint up in the
instance's protocol map, failing with the descriptive `LBError` when the
instance does not support it. -/
def resolveEndpoint (env : Env) (i : Invocation) (ins : Instance) : Invocation × GoResult String :=
  let p2 := resolvedProto env i ins
  let i2 := { i with protocol := p2 }
  match lookupAssoc ins.endpointsMap p2 with
  | some ep => (i2, .ok ep)
  | none => (i2, .error (GoError.mk (protoErrMsg p2 i2.microServiceName ins.endpointsMap)))

/-- `(*LBHandler).getEndpoint`: the full endpoint selection for one round.
`n` is the selection's sequence number (threaded to the selection engine),
the returned invocation is the Call Context with its in-place mutations. -/
def getEndpoint (env : Env) (n : Nat) (i : Invocation) : Invocation × GoResult String :=
  match selectInstance env n i with
  | (i2, .crash) => (i2, .crash)
  | (i2, .error e) => (i2, .error e)
  | (i2, .ok ins) => resolveEndpoint env i2 ins

/-- Observable events of one `Handle` run: a selection (recording the pinned
strategy name and the endpoint-or-error outcome), a chain advance (recording
the chain's handler index at the moment of `chain.Next`, the endpoint set on
the Call Context, and the response handed to the per-advance callback), and a
delivery to the original caller's callback. -/
inductive Event where
  | select (strategyName : String) (result : GoResult String)
  | advance (idx : Nat) (ep : String) (resp : Option Response)
  | deliver (resp : Option Response)
deriving Repr, DecidableEq

/-- The mutable state threaded through a `Handle` run: the Call Context, the
chain's handler index (`chain.HandlerIndex`), the captured `invResp`, the
number of chain advances so far (indexing the environment's chain oracle),
and the event trace. -/
structure RunState where
  inv : Invocation
  handlerIndex : Nat
  invResp : Option Response
  advCount : Nat
  trace : List Event
deriving Repr, DecidableEq

/-- `respErr` as computed by the retry operation's inner callback: the
response's `Err` when the response is non-nil, nil otherwise. -/
def respErrOf (r : Option Response) : Option GoError :=
  match r with
  | some resp => resp.err
  | none => none

/-- One execution of the body of the retry `operation` closure past its
counter guard: set the endpoint, reset `chain.HandlerIndex` to the value
captured before the retry sequence began, advance the chain, capture a
non-nil response into `invResp`, and return `respErr`. -/
def retryAdvance (env : Env) (hIdx0 : Nat) (ep : String) (st : RunState) :
    RunState × Option GoError :=
  let stSet := { st with inv := { st.inv with endpoint := ep }, handlerIndex := hIdx0 }
  let resp := env.chainResp stSet.advCount
  let st2 := { stSet with
    handlerIndex := env.chainIdxAfter stSet.advCount,
    invResp := match resp with | some r => some r | none => stSet.invResp,
    advCount := stSet.advCount + 1,
    trace := stSet.trace ++ [Event.advance stSet.handlerIndex ep resp] }
  (st2, respErrOf resp)

/-- `backoff.Retry(operation, lbBackoff)` over the retry `operation` closure.
`remaining` is `retryOnSame + 1 - callTimes`: at `0` the operation returns
`backoff.Permanent(errors.New("retry times expires"))`, which `Retry`
unwraps.  A `backoff.Permanent` error from the chain likewise stops the loop
unwrapped; a plain error is recoverable and retried after the backoff delay.
Modelled from the spec: the configured backoff policy is a pure delay
(spec §4.4, §9) — it never stops the loop by itself. -/
def innerRetry (env : Env) (hIdx0 : Nat) (ep : String) :
    Nat → RunState → RunState × Option GoError
  | 0, st => (st, some (GoError.mk "retry times expires"))
  | remaining + 1, st =>
    match retryAdvance env hIdx0 ep st with
    | (st2, none) => (st2, none)
    | (st2, some (GoError.permanent e)) => (st2, some e)
    | (st2, some (GoError.mk _)) => innerRetry env hIdx0 ep remaining st2

/-- How a `Handle` run ends: the final `cb(invResp)` after the loop
(`finished`), an early `writeErr` return on a selection failure (`early`),
or a Go runtime panic (`crashed`). -/
inductive RunOutcome where
  | finished
  | early
  | crashed
deriving Repr, DecidableEq

/-- Modelled from the spec: `writeErr(err, cb)` surfaces an error to the
caller as a Response carrying the error (spec §7). -/
def writeErrResponse (e : GoError) : Option Response := some ⟨some e⟩

/-- The outer `for j := 0; j < retryOnNext+1; j++` loop of `handleWithRetry`:
`rounds` is the number of outer iterations still allowed and `selCount` the
sequence number of the next selection.  Each round selects (aborting the
whole sequence through `writeErr` on failure), then runs the inner bounded
retry against the selected endpoint, breaking out on success. -/
def outerLoop (env : Env) (hIdx0 retryOnSame : Nat) :
    Nat → Nat → RunState → RunState × RunOutcome
  | 0, _, st => (st, .finished)
  | rounds + 1, selCount, st =>
    match getEndpoint env selCount st.inv with
    | (i2, .crash) =>
      ({ st with inv := i2, trace := st.trace ++ [Event.select i2.strategy .crash] }, .crashed)
    | (i2, .error e) =>
      let tr := st.trace ++ [Event.select i2.strategy (.error e), Event.deliver (writeErrResponse e)]
      ({ st with inv := i2, trace := tr }, .early)
    | (i2, .ok ep) =>
      let st1 := { st with inv := i2, trace := st.trace ++ [Event.select i2.strategy (.ok ep)] }
      match innerRetry env hIdx0 ep (retryOnSame + 1) st1 with
      | (st2, none) => (st2, .finished)
      | (st2, some _) => outerLoop env hIdx0 retryOnSame rounds (selCount + 1) st2

/-- The state a `Handle` run starts from: the caller's invocation, the
chain's current handler index, nil `invResp`, no advances, empty trace. -/
def initState (i : Invocation) (hIdx0 : Nat) : RunState := ⟨i, hIdx0, none, 0, []⟩

/-- The Go zero value `&invocation.Response\x7b\x7d` delivered when no
response was ever captured. -/
def emptyResponse : Response := ⟨none⟩

/-- `(*LBHandler).handleWithRetry`: read the two retry counters, run the
nested loops from the captured handler index, and deliver the captured
response (or an empty one) to the original callback unless `writeErr`
already did. -/
def handleWithRetry (env : Env) (i : Invocation) (hIdx0 : Nat) : RunState × RunOutcome :=
  let retryOnSame := env.getRetryOnSame i.sourceMicroService i.microServiceName
  let retryOnNext := env.getRetryOnNext i.sourceMicroService i.microServiceName
  match outerLoop env hIdx0 retryOnSame (retryOnNext + 1) 0 (initState i hIdx0) with
  | (st, .finished) =>
    ({ st with trace := st.trace ++ [Event.deliver (some (st.invResp.getD emptyResponse))] },
     .finished)
  | (st, .early) => (st, .early)
  | (st, .crashed) => (st, .crashed)

/-- `(*LBHandler).handleWithNoRetry`: select once; on failure `writeErr`, on
success set the endpoint and advance the chain exactly once, handing the
original callback directly to the chain (its response is forwarded
unchanged, nil included). -/
def handleWithNoRetry (env : Env) (i : Invocation) (hIdx0 : Nat) : RunState × RunOutcome :=
  let st := initState i hIdx0
  match getEndpoint env 0 i with
  | (i2, .crash) =>
    ({ st with inv := i2, trace := [Event.select i2.strategy .crash] }, .crashed)
  | (i2, .error e) =>
    let tr := [Event.select i2.strategy (.error e), Event.deliver (writeErrResponse e)]
    ({ st with inv := i2, trace := tr }, .early)
  | (i2, .ok ep) =>
    let resp := env.chainResp 0
    let i3 := { i2 with endpoint := ep }
    let tr := [Event.select i2.strategy (.ok ep), Event.advance hIdx0 ep resp, Event.deliver resp]
    let st2 : RunState := ⟨i3, env.chainIdxAfter 0, resp, 1, tr⟩
    (st2, .finished)

/-- `(*LBHandler).Handle`: dispatch on `config.RetryEnabled`. -/
def handle (env : Env) (i : Invocation) (hIdx0 : Nat) : RunState × RunOutcome :=
  if env.retryEnabled i.sourceMicroService i.microServiceName then
    handleWithRetry env i hIdx0
  else
    handleWithNoRetry env i hIdx0

/-- Event classifiers and counters over a trace. -/
def Event.isAdvance : Event → Bool
  | .advance _ _ _ => true
  | _ => false

def Event.isSelect : Event → Bool
  | .select _ _ => true
  | _ => false

def Event.isDeliver : Event → Bool
  | .deliver _ => true
  | _ => false

/-- Number of chain advances recorded in a trace. -/
def countAdv (t : List Event) : Nat := (t.filter Event.isAdvance).length

/-- Number of selections recorded in a trace. -/
def countSelect (t : List Event) : Nat := (t.filter Event.isSelect).length

/-- Number of deliveries to the original callback recorded in a trace. -/
def countDeliver (t : List Event) : Nat := (t.filter Event.isDeliver).length


/-! ## Auxiliary definitions used by the verification layer -/

/-- A non-nil chain response carrying a plain (recoverable, non-permanent)
error. -/
def plainFail (r : Option Response) : Prop :=
  ∃ rr m, r = some rr ∧ rr.err = some (GoError.mk m)

/-- Every selection the environment can serve succeeds with some endpoint. -/
def selAlwaysOk (env : Env) : Prop :=
  ∀ (n : Nat) (i : Invocation), ∃ i2 ep, getEndpoint env n i = (i2, GoResult.ok ep)

/-- The advance events of `count` consecutive chain advances starting at
oracle index `start`, all performed at chain position `h0` against endpoint
`ep`. -/
def advRun (env : Env) (h0 : Nat) (ep : String) : Nat → Nat → List Event
  | _, 0 => []
  | start, count + 1 =>
    Event.advance h0 ep (env.chainResp start) :: advRun env h0 ep (start + 1) count

/-- The Call Context after the in-place strategy pinning and filter
defaulting at the head of `getEndpoint` (lines 25-42 of the handler). -/
def pinInv (env : Env) (i : Invocation) : Invocation :=
  let sname := if i.strategy = "" then env.getStrategyName i.sourceMicroService i.microServiceName
               else i.strategy
  let i1 := { i with strategy := sname }
  if i1.filters = [] then { i1 with filters := env.getServerListFilters } else i1

/-- Boolean event predicate: an advance event was performed at chain
position `h0` (non-advance events pass trivially). -/
def advancesAtB (h0 : Nat) (ev : Event) : Bool :=
  match ev with
  | .advance idx _ _ => idx == h0
  | _ => true

/-- `sub` occurs as a contiguous substring of `s`. -/
def containsStr (s sub : String) : Prop := List.IsInfix sub.data s.data

/-- The prefix of a character list up to (excluding) the first occurrence of
`sep`. -/
def beforeSep (sep : Char) : List Char → List Char
  | [] => []
  | c :: rest => if c = sep then [] else c :: beforeSep sep rest

/-! ## Concrete environments and invocations used as witnesses -/

/-- A chain response that always fails with a plain error. -/
def failResp : Option Response := some ⟨some (GoError.mk "boom")⟩

/-- An instance that supports the requested protocol and http. -/
def okInstanceFor (p : String) : Instance := ⟨[(p, "i1"), ("http", "i1")], ""⟩

/-- A benign environment: every lookup, build and pick succeeds, retry is
enabled with one extra round and one extra attempt, and the chain moves its
handler index around after each advance (so the reset is observable). -/
def baseEnv : Env := {
  getStrategyName := fun _ _ => "RoundRobin"
  getStrategyPlugin := fun _ => Except.ok "RR"
  getServerListFilters := ["zone"]
  archaius := fun _ => some "http"
  buildStrategy := fun _ => Except.ok ()
  pick := fun _ inp => Except.ok (okInstanceFor inp.protocol)
  retryEnabled := fun _ _ => true
  getRetryOnSame := fun _ _ => 1
  getRetryOnNext := fun _ _ => 1
  chainResp := fun _ => failResp
  chainIdxAfter := fun k => k + 7 }

/-- `baseEnv` with a custom chain oracle. -/
def envRetry (cr : Nat → Option Response) : Env := { baseEnv with chainResp := cr }

/-- `baseEnv` whose pick fails from selection number `failAt` on. -/
def envSelFail (failAt : Nat) : Env :=
  { baseEnv with
    pick := fun n inp =>
      if n < failAt then Except.ok (okInstanceFor inp.protocol)
      else Except.error (GoError.mk "no instance") }

/-- Chain oracle failing twice, then succeeding. -/
def succResp : Nat → Option Response := fun k => if k < 2 then failResp else some ⟨none⟩

/-- `baseEnv` with an unregistered strategy: the registry reports NotFound. -/
def c2env : Env :=
  { baseEnv with getStrategyPlugin := fun _ => Except.error (GoError.mk "not registered") }

/-- A fresh invocation: empty strategy, protocol and filters. -/
def invA : Invocation :=
  ⟨"src", "dst", "sid", "", "", [], [], "", Args.other, []⟩

/-- `invA` with a pinned non-empty strategy name. -/
def invPinned : Invocation := { invA with strategy := "Random" }

/-- `invA` carrying generic metadata whose session value holds two `=`. -/
def invAB : Invocation :=
  { invA with ctxMetadata := [("lb-session-id", "lb-session-id=a=b")] }

/-- `invA` carrying generic metadata `lb-session-id=xyz`. -/
def invXyz : Invocation :=
  { invA with ctxMetadata := [("lb-session-id", "lb-session-id=xyz")] }

/-- `invA` as a transport-native request carrying the session cookie. -/
def invCookie : Invocation :=
  { invA with args := Args.restRequest [("lb-session-id", "abc")] }

/-- The spec example instance `\x7bhttp: a:1, grpc: b:2\x7d`. -/
def insHG : Instance := ⟨[("http", "a:1"), ("grpc", "b:2")], ""⟩

/-- `baseEnv` with no configured transport and a fixed picked instance. -/
def envP : Env :=
  { baseEnv with archaius := fun _ => none, pick := fun _ _ => Except.ok insHG }

/-- `invA` requesting the unsupported protocol udp. -/
def iUdp : Invocation := { invA with protocol := "udp" }

/-- The pinned Call Context after `selectInstance` on `iUdp` under `envP`. -/
def i2Udp : Invocation := { iUdp with strategy := "RoundRobin", filters := ["zone"] }

/-- The pinned Call Context after `selectInstance` on `invA`. -/
def i2A : Invocation := { invA with strategy := "RoundRobin", filters := ["zone"] }

/-- The Call Context after a full successful `getEndpoint` on `invA` under
`baseEnv`. -/
def i2ok : Invocation :=
  { invA with strategy := "RoundRobin", filters := ["zone"], protocol := "http" }


/-! ## Trace counting lemmas -/

theorem countAdv_append (t1 t2 : List Event) :
    countAdv (t1 ++ t2) = countAdv t1 + countAdv t2 := by
  simp [countAdv, List.filter_append]

theorem countSelect_append (t1 t2 : List Event) :
    countSelect (t1 ++ t2) = countSelect t1 + countSelect t2 := by
  simp [countSelect, List.filter_append]

theorem countDeliver_append (t1 t2 : List Event) :
    countDeliver (t1 ++ t2) = countDeliver t1 + countDeliver t2 := by
  simp [countDeliver, List.filter_append]

theorem countAdv_advRun (env : Env) (h0 : Nat) (ep : String) :
    ∀ count start, countAdv (advRun env h0 ep start count) = count := by
  intro count
  induction count with
  | zero => intro start; rfl
  | succ n ih =>
    intro start
    simp [advRun, countAdv, List.filter, Event.isAdvance] at ih ⊢
    exact ih _

theorem countSelect_advRun (env : Env) (h0 : Nat) (ep : String) :
    ∀ count start, countSelect (advRun env h0 ep start count) = 0 := by
  intro count
  induction count with
  | zero => intro start; rfl
  | succ n ih =>
    intro start
    simp [advRun, countSelect, List.filter, Event.isSelect] at ih ⊢
    exact ih _

theorem countDeliver_advRun (env : Env) (h0 : Nat) (ep : String) :
    ∀ count start, countDeliver (advRun env h0 ep start count) = 0 := by
  intro count
  induction count with
  | zero => intro start; rfl
  | succ n ih =>
    intro start
    simp [advRun, countDeliver, List.filter, Event.isDeliver] at ih ⊢
    exact ih _

/-! ## The inner bounded-retry procedure -/

theorem innerRetry_allFail (env : Env) (h0 : Nat) (ep : String) :
    ∀ (remaining : Nat) (st : RunState),
    (∀ k, k < remaining → plainFail (env.chainResp (st.advCount + k))) →
    (∃ e, (innerRetry env h0 ep remaining st).2 = some e) ∧
    (innerRetry env h0 ep remaining st).1.advCount = st.advCount + remaining ∧
    (innerRetry env h0 ep remaining st).1.trace
      = st.trace ++ advRun env h0 ep st.advCount remaining ∧
    (0 < remaining →
      (innerRetry env h0 ep remaining st).1.invResp
        = env.chainResp (st.advCount + remaining - 1)) ∧
    (remaining = 0 → (innerRetry env h0 ep remaining st).1 = st) ∧
    (0 < remaining →
      (innerRetry env h0 ep remaining st).1.inv = { st.inv with endpoint := ep }) := by
  intro remaining
  induction remaining with
  | zero =>
    intro st _
    refine ⟨⟨GoError.mk "retry times expires", rfl⟩, ?_, ?_, ?_, ?_, ?_⟩ <;>
      simp [innerRetry, advRun]
  | succ r ih =>
    intro st h
    obtain ⟨rr, m, hresp, herr⟩ := h 0 (Nat.succ_pos r)
    simp only [Nat.add_zero] at hresp
    have hstep : retryAdvance env h0 ep st =
        (RunState.mk { st.inv with endpoint := ep } (env.chainIdxAfter st.advCount) (some rr)
          (st.advCount + 1) (st.trace ++ [Event.advance h0 ep (env.chainResp st.advCount)]),
         some (GoError.mk m)) := by
      simp [retryAdvance, hresp, respErrOf, herr]
    have hred : innerRetry env h0 ep (r + 1) st =
        innerRetry env h0 ep r
          (RunState.mk { st.inv with endpoint := ep } (env.chainIdxAfter st.advCount) (some rr)
            (st.advCount + 1) (st.trace ++ [Event.advance h0 ep (env.chainResp st.advCount)])) := by
      rw [innerRetry, hstep]
    set st2 : RunState :=
      RunState.mk { st.inv with endpoint := ep } (env.chainIdxAfter st.advCount) (some rr)
        (st.advCount + 1) (st.trace ++ [Event.advance h0 ep (env.chainResp st.advCount)]) with hst2
    have h2 : ∀ k, k < r → plainFail (env.chainResp (st2.advCount + k)) := by
      intro k hk
      have := h (k + 1) (by omega)
      have harith : st.advCount + (k + 1) = st2.advCount + k := by
        simp [hst2] <;> omega
      rwa [harith] at this
    obtain ⟨he, hadv, htr, hresp', hzero, hinv⟩ := ih st2 h2
    rw [hred]
    refine ⟨he, ?_, ?_, ?_, ?_, ?_⟩
    · rw [hadv]; simp [hst2] <;> omega
    · rw [htr]
      simp only [hst2]
      rw [advRun, List.append_assoc]
      rfl
    · intro _
      rcases Nat.eq_zero_or_pos r with hr | hr
      · subst hr
        rw [hzero rfl]
        try simp [hst2, hresp]
      · rw [hresp' hr]
        have harith : st2.advCount + r - 1 = st.advCount + (r + 1) - 1 := by
          simp [hst2] <;> omega
        rw [harith]
    · intro hcon; omega
    · intro _
      rcases Nat.eq_zero_or_pos r with hr | hr
      · subst hr
        rw [hzero rfl]
      · rw [hinv hr]

theorem innerRetry_success (env : Env) (h0 : Nat) (ep : String) :
    ∀ (d remaining : Nat) (st : RunState), d < remaining →
    (∀ k, k < d → plainFail (env.chainResp (st.advCount + k))) →
    (∃ rr, env.chainResp (st.advCount + d) = some rr ∧ rr.err = none) →
    (innerRetry env h0 ep remaining st).2 = none ∧
    (innerRetry env h0 ep remaining st).1.advCount = st.advCount + d + 1 ∧
    (innerRetry env h0 ep remaining st).1.trace
      = st.trace ++ advRun env h0 ep st.advCount (d + 1) ∧
    (innerRetry env h0 ep remaining st).1.invResp = env.chainResp (st.advCount + d) ∧
    (innerRetry env h0 ep remaining st).1.inv = { st.inv with endpoint := ep } := by
  intro d
  induction d with
  | zero =>
    intro remaining st hlt _ hsucc
    obtain ⟨r, hrem⟩ : ∃ r, remaining = r + 1 := ⟨remaining - 1, by omega⟩
    subst hrem
    obtain ⟨rr, hresp, herr⟩ := hsucc
    simp only [Nat.add_zero] at hresp
    have hstep : retryAdvance env h0 ep st =
        (RunState.mk { st.inv with endpoint := ep } (env.chainIdxAfter st.advCount) (some rr)
          (st.advCount + 1) (st.trace ++ [Event.advance h0 ep (env.chainResp st.advCount)]),
         none) := by
      simp [retryAdvance, hresp, respErrOf, herr]
    have hred : innerRetry env h0 ep (r + 1) st =
        (RunState.mk { st.inv with endpoint := ep } (env.chainIdxAfter st.advCount) (some rr)
          (st.advCount + 1) (st.trace ++ [Event.advance h0 ep (env.chainResp st.advCount)]),
         none) := by
      rw [innerRetry, hstep]
    rw [hred]
    refine ⟨rfl, rfl, ?_, by simp [hresp], rfl⟩
    simp [advRun]
  | succ dd ih =>
    intro remaining st hlt h hsucc
    obtain ⟨r, hrem⟩ : ∃ r, remaining = r + 1 := ⟨remaining - 1, by omega⟩
    subst hrem
    obtain ⟨rr, m, hresp, herr⟩ := h 0 (Nat.succ_pos dd)
    simp only [Nat.add_zero] at hresp
    have hstep : retryAdvance env h0 ep st =
        (RunState.mk { st.inv with endpoint := ep } (env.chainIdxAfter st.advCount) (some rr)
          (st.advCount + 1) (st.trace ++ [Event.advance h0 ep (env.chainResp st.advCount)]),
         some (GoError.mk m)) := by
      simp [retryAdvance, hresp, respErrOf, herr]
    have hred : innerRetry env h0 ep (r + 1) st =
        innerRetry env h0 ep r
          (RunState.mk { st.inv with endpoint := ep } (env.chainIdxAfter st.advCount) (some rr)
            (st.advCount + 1) (st.trace ++ [Event.advance h0 ep (env.chainResp st.advCount)])) := by
      rw [innerRetry, hstep]
    set st2 : RunState :=
      RunState.mk { st.inv with endpoint := ep } (env.chainIdxAfter st.advCount) (some rr)
        (st.advCount + 1) (st.trace ++ [Event.advance h0 ep (env.chainResp st.advCount)]) with hst2
    have hlt2 : dd < r := by omega
    have h2 : ∀ k, k < dd → plainFail (env.chainResp (st2.advCount + k)) := by
      intro k hk
      have := h (k + 1) (by omega)
      have harith : st.advCount + (k + 1) = st2.advCount + k := by
        simp [hst2] <;> omega
      rwa [harith] at this
    have hsucc2 : ∃ rr2, env.chainResp (st2.advCount + dd) = some rr2 ∧ rr2.err = none := by
      obtain ⟨rr2, hr2, he2⟩ := hsucc
      refine ⟨rr2, ?_, he2⟩
      have harith : st2.advCount + dd = st.advCount + (dd + 1) := by
        simp [hst2] <;> omega
      rw [harith]; exact hr2
    obtain ⟨hnone, hadv, htr, hresp', hinv⟩ := ih r st2 hlt2 h2 hsucc2
    rw [hred]
    refine ⟨hnone, ?_, ?_, ?_, ?_⟩
    · rw [hadv]; simp [hst2] <;> omega
    · rw [htr]
      simp only [hst2]
      rw [advRun, List.append_assoc]
      rfl
    · rw [hresp']
      have harith : st2.advCount + dd = st.advCount + (dd + 1) := by
        simp [hst2] <;> omega
      rw [harith]
    · rw [hinv]


/-! ## The outer switch-instance loop -/

theorem outerLoop_allFail (env : Env) (h0 m : Nat) (hsel : selAlwaysOk env)
    (hfail : ∀ k, plainFail (env.chainResp k)) :
    ∀ (rounds selCount : Nat) (st : RunState),
    (outerLoop env h0 m rounds selCount st).2 = RunOutcome.finished ∧
    (outerLoop env h0 m rounds selCount st).1.advCount = st.advCount + rounds * (m + 1) ∧
    countAdv (outerLoop env h0 m rounds selCount st).1.trace
      = countAdv st.trace + rounds * (m + 1) ∧
    countSelect (outerLoop env h0 m rounds selCount st).1.trace
      = countSelect st.trace + rounds ∧
    countDeliver (outerLoop env h0 m rounds selCount st).1.trace = countDeliver st.trace ∧
    (0 < rounds →
      (outerLoop env h0 m rounds selCount st).1.invResp
        = env.chainResp (st.advCount + rounds * (m + 1) - 1)) := by
  intro rounds
  induction rounds with
  | zero =>
    intro selCount st
    refine ⟨rfl, by simp [outerLoop], by simp [outerLoop], by simp [outerLoop],
      by simp [outerLoop], by omega⟩
  | succ rr ih =>
    intro selCount st
    obtain ⟨i2, ep, heq⟩ := hsel selCount st.inv
    set st1 : RunState :=
      ⟨i2, st.handlerIndex, st.invResp, st.advCount,
        st.trace ++ [Event.select i2.strategy (GoResult.ok ep)]⟩ with hst1
    have hfail1 : ∀ k, k < m + 1 → plainFail (env.chainResp (st1.advCount + k)) :=
      fun k _ => hfail _
    obtain ⟨⟨e, he⟩, hadv, htr, hresp, _, _⟩ := innerRetry_allFail env h0 ep (m + 1) st1 hfail1
    have hred : outerLoop env h0 m (rr + 1) selCount st =
        outerLoop env h0 m rr (selCount + 1) (innerRetry env h0 ep (m + 1) st1).1 := by
      rw [outerLoop, heq]
      simp only []
      obtain ⟨st2, e2, hpair⟩ : ∃ st2 e2, innerRetry env h0 ep (m + 1) st1 = (st2, some e2) := by
        refine ⟨(innerRetry env h0 ep (m + 1) st1).1, e, ?_⟩
        rw [← he]
      rw [hpair]
    set stI : RunState := (innerRetry env h0 ep (m + 1) st1).1 with hstI
    have hadvI : stI.advCount = st.advCount + (m + 1) := by
      rw [hstI, hadv]
    have htrAdv : countAdv stI.trace = countAdv st.trace + (m + 1) := by
      rw [hstI, htr, countAdv_append, countAdv_append, countAdv_advRun]
      simp [countAdv, Event.isAdvance]
    have htrSel : countSelect stI.trace = countSelect st.trace + 1 := by
      rw [hstI, htr, countSelect_append, countSelect_append, countSelect_advRun]
      simp [countSelect, Event.isSelect]
    have htrDel : countDeliver stI.trace = countDeliver st.trace := by
      rw [hstI, htr, countDeliver_append, countDeliver_append, countDeliver_advRun]
      simp [countDeliver, Event.isDeliver]
    obtain ⟨cf, cadv, ctadv, ctsel, ctdel, cresp⟩ := ih (selCount + 1) stI
    rw [hred]
    refine ⟨cf, ?_, ?_, ?_, ?_, ?_⟩
    · rw [cadv, hadvI, Nat.succ_mul]; omega
    · rw [ctadv, htrAdv, Nat.succ_mul]; omega
    · rw [ctsel, htrSel]; omega
    · rw [ctdel, htrDel]
    · intro _
      rcases Nat.eq_zero_or_pos rr with hr | hr
      · subst hr
        have hz : outerLoop env h0 m 0 (selCount + 1) stI = (stI, RunOutcome.finished) := rfl
        rw [hz]
        have := hresp (Nat.succ_pos m)
        rw [hstI] at this ⊢
        rw [this]
        have harith : st1.advCount + (m + 1) - 1 = st.advCount + 1 * (m + 1) - 1 := by
          simp [hst1] <;> omega
        rw [harith]
      · rw [cresp hr]
        have harith : stI.advCount + rr * (m + 1) - 1
            = st.advCount + (rr + 1) * (m + 1) - 1 := by
          rw [hadvI, Nat.succ_mul]; omega
        rw [harith]

theorem outerLoop_success (env : Env) (h0 m : Nat) (hsel : selAlwaysOk env) :
    ∀ (rounds selCount : Nat) (st : RunState) (d : Nat),
    (∀ k, k < d → plainFail (env.chainResp (st.advCount + k))) →
    (∃ rr, env.chainResp (st.advCount + d) = some rr ∧ rr.err = none) →
    d < rounds * (m + 1) →
    (outerLoop env h0 m rounds selCount st).2 = RunOutcome.finished ∧
    (outerLoop env h0 m rounds selCount st).1.advCount = st.advCount + d + 1 ∧
    countAdv (outerLoop env h0 m rounds selCount st).1.trace = countAdv st.trace + d + 1 ∧
    countSelect (outerLoop env h0 m rounds selCount st).1.trace
      = countSelect st.trace + d / (m + 1) + 1 ∧
    countDeliver (outerLoop env h0 m rounds selCount st).1.trace = countDeliver st.trace ∧
    (outerLoop env h0 m rounds selCount st).1.invResp = env.chainResp (st.advCount + d) := by
  intro rounds
  induction rounds with
  | zero =>
    intro selCount st d _ _ hd
    simp at hd
  | succ rr ih =>
    intro selCount st d hfails hsucc hd
    obtain ⟨i2, ep, heq⟩ := hsel selCount st.inv
    set st1 : RunState :=
      ⟨i2, st.handlerIndex, st.invResp, st.advCount,
        st.trace ++ [Event.select i2.strategy (GoResult.ok ep)]⟩ with hst1
    by_cases hcase : d < m + 1
    · obtain ⟨hnone, hadv, htr, hresp, hinv⟩ :=
        innerRetry_success env h0 ep d (m + 1) st1 hcase hfails hsucc
      have hred : outerLoop env h0 m (rr + 1) selCount st
          = ((innerRetry env h0 ep (m + 1) st1).1, RunOutcome.finished) := by
        rw [outerLoop, heq]
        simp only []
        obtain ⟨st2, hpair⟩ : ∃ st2, innerRetry env h0 ep (m + 1) st1 = (st2, none) := by
          refine ⟨(innerRetry env h0 ep (m + 1) st1).1, ?_⟩
          rw [← hnone]
        rw [hpair]
      rw [hred]
      refine ⟨rfl, hadv, ?_, ?_, ?_, hresp⟩
      · rw [htr, countAdv_append, countAdv_append, countAdv_advRun]
        simp [countAdv, Event.isAdvance] <;> omega
      · rw [htr, countSelect_append, countSelect_append, countSelect_advRun,
          Nat.div_eq_of_lt hcase]
        simp [countSelect, Event.isSelect] <;> omega
      · rw [htr, countDeliver_append, countDeliver_append, countDeliver_advRun]
        simp [countDeliver, Event.isDeliver] <;> omega
    · have hfail1 : ∀ k, k < m + 1 → plainFail (env.chainResp (st1.advCount + k)) := by
        intro k hk
        exact hfails k (by omega)
      obtain ⟨⟨e, he⟩, hadv, htr, _, _, _⟩ :=
        innerRetry_allFail env h0 ep (m + 1) st1 hfail1
      have hred : outerLoop env h0 m (rr + 1) selCount st =
          outerLoop env h0 m rr (selCount + 1) (innerRetry env h0 ep (m + 1) st1).1 := by
        rw [outerLoop, heq]
        simp only []
        obtain ⟨st2, e2, hpair⟩ : ∃ st2 e2, innerRetry env h0 ep (m + 1) st1 = (st2, some e2) := by
          refine ⟨(innerRetry env h0 ep (m + 1) st1).1, e, ?_⟩
          rw [← he]
        rw [hpair]
      set stI : RunState := (innerRetry env h0 ep (m + 1) st1).1 with hstI
      have hadvI : stI.advCount = st.advCount + (m + 1) := by
        rw [hstI, hadv]
      have htrAdv : countAdv stI.trace = countAdv st.trace + (m + 1) := by
        rw [hstI, htr, countAdv_append, countAdv_append, countAdv_advRun]
        simp [countAdv, Event.isAdvance]
      have htrSel : countSelect stI.trace = countSelect st.trace + 1 := by
        rw [hstI, htr, countSelect_append, countSelect_append, countSelect_advRun]
        simp [countSelect, Event.isSelect]
      have htrDel : countDeliver stI.trace = countDeliver st.trace := by
        rw [hstI, htr, countDeliver_append, countDeliver_append, countDeliver_advRun]
        simp [countDeliver, Event.isDeliver]
      have hfails2 : ∀ k, k < d - (m + 1) → plainFail (env.chainResp (stI.advCount + k)) := by
        intro k hk
        have := hfails (m + 1 + k) (by omega)
        have harith : st.advCount + (m + 1 + k) = stI.advCount + k := by
          rw [hadvI]; omega
        rwa [harith] at this
      have hsucc2 : ∃ rr2, env.chainResp (stI.advCount + (d - (m + 1))) = some rr2
          ∧ rr2.err = none := by
        obtain ⟨rr2, hr2, he2⟩ := hsucc
        refine ⟨rr2, ?_, he2⟩
        have harith : stI.advCount + (d - (m + 1)) = st.advCount + d := by
          rw [hadvI]; omega
        rw [harith]; exact hr2
      have hd2 : d - (m + 1) < rr * (m + 1) := by
        rw [Nat.succ_mul] at hd; omega
      obtain ⟨cf, cadv, ctadv, ctsel, ctdel, cresp⟩ :=
        ih (selCount + 1) stI (d - (m + 1)) hfails2 hsucc2 hd2
      rw [hred]
      have hdiv : d / (m + 1) = (d - (m + 1)) / (m + 1) + 1 := by
        rw [Nat.div_eq_sub_div (Nat.succ_pos m) (by omega)]
      refine ⟨cf, ?_, ?_, ?_, ?_, ?_⟩
      · rw [cadv, hadvI]; omega
      · rw [ctadv, htrAdv]; omega
      · rw [ctsel, htrSel, hdiv]; omega
      · rw [ctdel, htrDel]
      · rw [cresp]
        have harith : stI.advCount + (d - (m + 1)) = st.advCount + d := by
          rw [hadvI]; omega
        rw [harith]

theorem outerLoop_selFail (env : Env) (h0 m : Nat) (e : GoError) :
    ∀ (kk rounds selCount : Nat) (st : RunState),
    (∀ j, j < kk → ∀ i, ∃ i2 ep, getEndpoint env (selCount + j) i = (i2, GoResult.ok ep)) →
    (∀ i, ∃ i2, getEndpoint env (selCount + kk) i = (i2, GoResult.error e)) →
    (∀ l, l < kk * (m + 1) → plainFail (env.chainResp (st.advCount + l))) →
    kk < rounds →
    (outerLoop env h0 m rounds selCount st).2 = RunOutcome.early ∧
    (outerLoop env h0 m rounds selCount st).1.advCount = st.advCount + kk * (m + 1) ∧
    countAdv (outerLoop env h0 m rounds selCount st).1.trace
      = countAdv st.trace + kk * (m + 1) ∧
    countSelect (outerLoop env h0 m rounds selCount st).1.trace
      = countSelect st.trace + kk + 1 ∧
    countDeliver (outerLoop env h0 m rounds selCount st).1.trace
      = countDeliver st.trace + 1 ∧
    (outerLoop env h0 m rounds selCount st).1.trace.getLast?
      = some (Event.deliver (writeErrResponse e)) := by
  intro kk
  induction kk with
  | zero =>
    intro rounds selCount st _ hselerr _ hr
    obtain ⟨r, hrounds⟩ : ∃ r, rounds = r + 1 := ⟨rounds - 1, by omega⟩
    subst hrounds
    obtain ⟨i2, heq⟩ := hselerr st.inv
    rw [Nat.add_zero] at heq
    have hred : outerLoop env h0 m (r + 1) selCount st =
        (⟨i2, st.handlerIndex, st.invResp, st.advCount,
          st.trace ++ [Event.select i2.strategy (GoResult.error e),
            Event.deliver (writeErrResponse e)]⟩,
         RunOutcome.early) := by
      rw [outerLoop, heq]
    rw [hred]
    refine ⟨rfl, by simp, ?_, ?_, ?_, ?_⟩
    · rw [countAdv_append]
      simp [countAdv, Event.isAdvance]
    · rw [countSelect_append]
      simp [countSelect, Event.isSelect, List.filter]
    · rw [countDeliver_append]
      simp [countDeliver, Event.isDeliver, List.filter]
    · have hsplit : st.trace ++ [Event.select i2.strategy (GoResult.error e),
          Event.deliver (writeErrResponse e)]
          = (st.trace ++ [Event.select i2.strategy (GoResult.error e)])
            ++ [Event.deliver (writeErrResponse e)] := by
        simp
      simp only []
      rw [hsplit, List.getLast?_concat]
  | succ kk2 ih =>
    intro rounds selCount st hselok hselerr hfail hr
    obtain ⟨r, hrounds⟩ : ∃ r, rounds = r + 1 := ⟨rounds - 1, by omega⟩
    subst hrounds
    obtain ⟨i2, ep, heq⟩ := hselok 0 (Nat.succ_pos kk2) st.inv
    rw [Nat.add_zero] at heq
    set st1 : RunState :=
      ⟨i2, st.handlerIndex, st.invResp, st.advCount,
        st.trace ++ [Event.select i2.strategy (GoResult.ok ep)]⟩ with hst1
    have hfail1 : ∀ k, k < m + 1 → plainFail (env.chainResp (st1.advCount + k)) := by
      intro k hk
      refine hfail k ?_
      calc k < m + 1 := hk
        _ ≤ (kk2 + 1) * (m + 1) := by
            rw [Nat.succ_mul]; omega
    obtain ⟨⟨e2, he⟩, hadv, htr, _, _, _⟩ := innerRetry_allFail env h0 ep (m + 1) st1 hfail1
    have hred : outerLoop env h0 m (r + 1) selCount st =
        outerLoop env h0 m r (selCount + 1) (innerRetry env h0 ep (m + 1) st1).1 := by
      rw [outerLoop, heq]
      simp only []
      obtain ⟨st2, e3, hpair⟩ : ∃ st2 e3, innerRetry env h0 ep (m + 1) st1 = (st2, some e3) := by
        refine ⟨(innerRetry env h0 ep (m + 1) st1).1, e2, ?_⟩
        rw [← he]
      rw [hpair]
    set stI : RunState := (innerRetry env h0 ep (m + 1) st1).1 with hstI
    have hadvI : stI.advCount = st.advCount + (m + 1) := by
      rw [hstI, hadv]
    have htrAdv : countAdv stI.trace = countAdv st.trace + (m + 1) := by
      rw [hstI, htr, countAdv_append, countAdv_append, countAdv_advRun]
      simp [countAdv, Event.isAdvance] <;> omega
    have htrSel : countSelect stI.trace = countSelect st.trace + 1 := by
      rw [hstI, htr, countSelect_append, countSelect_append, countSelect_advRun]
      simp [countSelect, Event.isSelect] <;> omega
    have htrDel : countDeliver stI.trace = countDeliver st.trace := by
      rw [hstI, htr, countDeliver_append, countDeliver_append, countDeliver_advRun]
      simp [countDeliver, Event.isDeliver] <;> omega
    have hselok2 : ∀ j, j < kk2 → ∀ i,
        ∃ i2 ep, getEndpoint env (selCount + 1 + j) i = (i2, GoResult.ok ep) := by
      intro j hj i
      have harith : selCount + 1 + j = selCount + (j + 1) := by omega
      rw [harith]
      exact hselok (j + 1) (by omega) i
    have hselerr2 : ∀ i, ∃ i2, getEndpoint env (selCount + 1 + kk2) i = (i2, GoResult.error e) := by
      intro i
      have harith : selCount + 1 + kk2 = selCount + (kk2 + 1) := by omega
      rw [harith]
      exact hselerr i
    have hfail2 : ∀ l, l < kk2 * (m + 1) → plainFail (env.chainResp (stI.advCount + l)) := by
      intro l hl
      have := hfail (m + 1 + l) (by rw [Nat.succ_mul]; omega)
      have harith : st.advCount + (m + 1 + l) = stI.advCount + l := by
        rw [hadvI]; omega
      rwa [harith] at this
    obtain ⟨cf, cadv, ctadv, ctsel, ctdel, clast⟩ :=
      ih r (selCount + 1) stI hselok2 hselerr2 hfail2 (by omega)
    rw [hred]
    refine ⟨cf, ?_, ?_, ?_, ?_, clast⟩
    · rw [cadv, hadvI, Nat.succ_mul]; omega
    · rw [ctadv, htrAdv, Nat.succ_mul]; omega
    · rw [ctsel, htrSel]; omega
    · rw [ctdel, htrDel]

/-- Claim C1: in retry mode with retryOnNext = n and retryOnSame = m, when every
selection the environment can serve succeeds and every chain advance reports a
recoverable (non-permanent) error, the chain is advanced exactly
(n+1)*(m+1) times, exactly one response is delivered, and the delivered
response is the last chain response (carrying the last observed error). -/
theorem lb_retry_exhaustion (env : Env) (i : Invocation) (h0 n m : Nat)
    (hn : env.getRetryOnNext i.sourceMicroService i.microServiceName = n)
    (hm : env.getRetryOnSame i.sourceMicroService i.microServiceName = m)
    (hsel : selAlwaysOk env)
    (hfail : ∀ k, plainFail (env.chainResp k)) :
    (handleWithRetry env i h0).2 = RunOutcome.finished ∧
    countAdv (handleWithRetry env i h0).1.trace = (n + 1) * (m + 1) ∧
    countDeliver (handleWithRetry env i h0).1.trace = 1 ∧
    (handleWithRetry env i h0).1.trace.getLast?
      = some (Event.deliver (env.chainResp ((n + 1) * (m + 1) - 1))) := by
  obtain ⟨cf, cadv, ctadv, ctsel, ctdel, cresp⟩ :=
    outerLoop_allFail env h0 m hsel hfail (n + 1) 0 (initState i h0)
  set st1 : RunState := (outerLoop env h0 m (n + 1) 0 (initState i h0)).1 with hst1
  have hpair : outerLoop env h0 m (n + 1) 0 (initState i h0) = (st1, RunOutcome.finished) := by
    rw [hst1, ← cf]
  have hrun : handleWithRetry env i h0 =
      (⟨st1.inv, st1.handlerIndex, st1.invResp, st1.advCount,
        st1.trace ++ [Event.deliver (some (st1.invResp.getD emptyResponse))]⟩,
       RunOutcome.finished) := by
    rw [handleWithRetry]
    simp only [hm, hn]
    rw [hpair]
  have hresp : st1.invResp = env.chainResp ((n + 1) * (m + 1) - 1) := by
    rw [hst1]
    have := cresp (Nat.succ_pos n)
    simpa [initState] using this
  obtain ⟨rr, mm, hcr, _⟩ := hfail ((n + 1) * (m + 1) - 1)
  rw [hrun]
  refine ⟨rfl, ?_, ?_, ?_⟩
  · show countAdv (st1.trace ++ [Event.deliver (some (st1.invResp.getD emptyResponse))])
      = (n + 1) * (m + 1)
    rw [countAdv_append, ctadv]
    simp [initState, countAdv, Event.isAdvance]
  · show countDeliver (st1.trace ++ [Event.deliver (some (st1.invResp.getD emptyResponse))]) = 1
    rw [countDeliver_append, ctdel]
    simp [initState, countDeliver, Event.isDeliver, List.filter]
  · show (st1.trace ++ [Event.deliver (some (st1.invResp.getD emptyResponse))]).getLast?
      = some (Event.deliver (env.chainResp ((n + 1) * (m + 1) - 1)))
    rw [List.getLast?_concat, hresp, hcr]
    rfl

/-- Claim C3: in retry mode, if the first k chain advances fail recoverably and
advance k reports success (a non-nil response with no error), the loop stops
immediately: exactly k+1 advances, exactly k/(m+1)+1 selections (so no round
after the successful one), exactly one delivery, and the delivered response is
the successful chain response. -/
theorem lb_retry_stops_on_success (env : Env) (i : Invocation) (h0 n m k : Nat)
    (hn : env.getRetryOnNext i.sourceMicroService i.microServiceName = n)
    (hm : env.getRetryOnSame i.sourceMicroService i.microServiceName = m)
    (hsel : selAlwaysOk env)
    (hfails : ∀ l, l < k → plainFail (env.chainResp l))
    (hsucc : ∃ rr, env.chainResp k = some rr ∧ rr.err = none)
    (hk : k < (n + 1) * (m + 1)) :
    (handleWithRetry env i h0).2 = RunOutcome.finished ∧
    countAdv (handleWithRetry env i h0).1.trace = k + 1 ∧
    countSelect (handleWithRetry env i h0).1.trace = k / (m + 1) + 1 ∧
    countDeliver (handleWithRetry env i h0).1.trace = 1 ∧
    (handleWithRetry env i h0).1.trace.getLast?
      = some (Event.deliver (env.chainResp k)) := by
  have hfails0 : ∀ l, l < k → plainFail (env.chainResp ((initState i h0).advCount + l)) := by
    intro l hl
    simpa [initState] using hfails l hl
  have hsucc0 : ∃ rr, env.chainResp ((initState i h0).advCount + k) = some rr ∧ rr.err = none := by
    simpa [initState] using hsucc
  obtain ⟨cf, cadv, ctadv, ctsel, ctdel, cresp⟩ :=
    outerLoop_success env h0 m hsel (n + 1) 0 (initState i h0) k hfails0 hsucc0 hk
  set st1 : RunState := (outerLoop env h0 m (n + 1) 0 (initState i h0)).1 with hst1
  have hpair : outerLoop env h0 m (n + 1) 0 (initState i h0) = (st1, RunOutcome.finished) := by
    rw [hst1, ← cf]
  have hrun : handleWithRetry env i h0 =
      (⟨st1.inv, st1.handlerIndex, st1.invResp, st1.advCount,
        st1.trace ++ [Event.deliver (some (st1.invResp.getD emptyResponse))]⟩,
       RunOutcome.finished) := by
    rw [handleWithRetry]
    simp only [hm, hn]
    rw [hpair]
  have hresp : st1.invResp = env.chainResp k := by
    rw [hst1]
    simpa [initState] using cresp
  obtain ⟨rr, hcr, _⟩ := hsucc
  rw [hrun]
  refine ⟨rfl, ?_, ?_, ?_, ?_⟩
  · show countAdv (st1.trace ++ [Event.deliver (some (st1.invResp.getD emptyResponse))]) = k + 1
    rw [countAdv_append, ctadv]
    simp [initState, countAdv, Event.isAdvance]
  · show countSelect (st1.trace ++ [Event.deliver (some (st1.invResp.getD emptyResponse))])
      = k / (m + 1) + 1
    rw [countSelect_append, ctsel]
    simp [initState, countSelect, Event.isSelect]
  · show countDeliver (st1.trace ++ [Event.deliver (some (st1.invResp.getD emptyResponse))]) = 1
    rw [countDeliver_append, ctdel]
    simp [initState, countDeliver, Event.isDeliver, List.filter]
  · show (st1.trace ++ [Event.deliver (some (st1.invResp.getD emptyResponse))]).getLast?
      = some (Event.deliver (env.chainResp k))
    rw [List.getLast?_concat, hresp, hcr]
    rfl

/-- Claim C4: in retry mode, if selections 0..k-1 succeed, every advance up to
round k fails recoverably, and the selection of round k fails with error e,
then round k performs no attempt, no round k+1 is started (exactly k+1
selections), and the single delivered response carries exactly the selection
error e - not a retry-exhausted marker. -/
theorem lb_selection_failure_aborts (env : Env) (i : Invocation) (h0 n m k : Nat) (e : GoError)
    (hn : env.getRetryOnNext i.sourceMicroService i.microServiceName = n)
    (hm : env.getRetryOnSame i.sourceMicroService i.microServiceName = m)
    (hselok : ∀ j, j < k → ∀ i2, ∃ i3 ep, getEndpoint env j i2 = (i3, GoResult.ok ep))
    (hselerr : ∀ i2, ∃ i3, getEndpoint env k i2 = (i3, GoResult.error e))
    (hfail : ∀ l, l < k * (m + 1) → plainFail (env.chainResp l))
    (hk : k ≤ n) :
    (handleWithRetry env i h0).2 = RunOutcome.early ∧
    countAdv (handleWithRetry env i h0).1.trace = k * (m + 1) ∧
    countSelect (handleWithRetry env i h0).1.trace = k + 1 ∧
    countDeliver (handleWithRetry env i h0).1.trace = 1 ∧
    (handleWithRetry env i h0).1.trace.getLast?
      = some (Event.deliver (writeErrResponse e)) := by
  have hselok0 : ∀ j, j < k → ∀ i2, ∃ i3 ep, getEndpoint env (0 + j) i2 = (i3, GoResult.ok ep) := by
    intro j hj i2
    simpa using hselok j hj i2
  have hselerr0 : ∀ i2, ∃ i3, getEndpoint env (0 + k) i2 = (i3, GoResult.error e) := by
    intro i2
    simpa using hselerr i2
  have hfail0 : ∀ l, l < k * (m + 1) → plainFail (env.chainResp ((initState i h0).advCount + l)) := by
    intro l hl
    simpa [initState] using hfail l hl
  obtain ⟨cf, cadv, ctadv, ctsel, ctdel, clast⟩ :=
    outerLoop_selFail env h0 m e k (n + 1) 0 (initState i h0) hselok0 hselerr0 hfail0 (by omega)
  set st1 : RunState := (outerLoop env h0 m (n + 1) 0 (initState i h0)).1 with hst1
  have hpair : outerLoop env h0 m (n + 1) 0 (initState i h0) = (st1, RunOutcome.early) := by
    rw [hst1, ← cf]
  have hrun : handleWithRetry env i h0 = (st1, RunOutcome.early) := by
    rw [handleWithRetry]
    simp only [hm, hn]
    rw [hpair]
  rw [hrun]
  refine ⟨rfl, ?_, ?_, ?_, ?_⟩
  · show countAdv st1.trace = k * (m + 1)
    rw [hst1, ctadv]
    simp [initState, countAdv]
  · show countSelect st1.trace = k + 1
    rw [hst1, ctsel]
    simp [initState, countSelect]
  · show countDeliver st1.trace = 1
    rw [hst1, ctdel]
    simp [initState, countDeliver]
  · show st1.trace.getLast? = some (Event.deliver (writeErrResponse e))
    rw [hst1]
    exact clast



/-! ## Structural lemmas about getEndpoint and the pinned Call Context -/

theorem selectInstance_fst (env : Env) (n : Nat) (i : Invocation) :
    (selectInstance env n i).1 = pinInv env i := by
  rw [selectInstance, pinInv]
  simp only []
  split <;> try rfl
  split <;> try rfl
  split <;> rfl

theorem resolveEndpoint_fst (env : Env) (i : Invocation) (ins : Instance) :
    (resolveEndpoint env i ins).1 = { i with protocol := resolvedProto env i ins } := by
  rw [resolveEndpoint]
  simp only []
  split <;> rfl

theorem pinInv_strategy (env : Env) (i : Invocation) :
    (pinInv env i).strategy
      = (if i.strategy = "" then env.getStrategyName i.sourceMicroService i.microServiceName
         else i.strategy) := by
  rw [pinInv]
  simp only []
  split <;> rfl

theorem pinInv_protocol (env : Env) (i : Invocation) : (pinInv env i).protocol = i.protocol := by
  rw [pinInv]
  simp only []
  split <;> rfl

theorem pinInv_src (env : Env) (i : Invocation) :
    (pinInv env i).sourceMicroService = i.sourceMicroService := by
  rw [pinInv]
  simp only []
  split <;> rfl

theorem pinInv_dst (env : Env) (i : Invocation) :
    (pinInv env i).microServiceName = i.microServiceName := by
  rw [pinInv]
  simp only []
  split <;> rfl

theorem pinInv_filters (env : Env) (i : Invocation) :
    (pinInv env i).filters
      = (if i.filters = [] then env.getServerListFilters else i.filters) := by
  rw [pinInv]
  simp only []
  split <;> rfl

theorem getEndpoint_fst_cases (env : Env) (n : Nat) (i : Invocation) :
    (getEndpoint env n i).1 = pinInv env i ∨
    ∃ ins, selectInstance env n i = (pinInv env i, GoResult.ok ins) ∧
      (getEndpoint env n i).1
        = { pinInv env i with protocol := resolvedProto env (pinInv env i) ins } := by
  have hfst := selectInstance_fst env n i
  rcases hsi : selectInstance env n i with ⟨i2, r⟩
  have hi2 : i2 = pinInv env i := by rw [hsi] at hfst; exact hfst
  subst hi2
  cases r with
  | crash => left; rw [getEndpoint, hsi]
  | error e => left; rw [getEndpoint, hsi]
  | ok ins =>
    right
    refine ⟨ins, rfl, ?_⟩
    rw [getEndpoint, hsi]
    simp only []
    exact resolveEndpoint_fst env (pinInv env i) ins

theorem getEndpoint_strategy (env : Env) (n : Nat) (i : Invocation) :
    (getEndpoint env n i).1.strategy
      = (if i.strategy = "" then env.getStrategyName i.sourceMicroService i.microServiceName
         else i.strategy) := by
  rcases getEndpoint_fst_cases env n i with h | ⟨ins, _, h⟩ <;>
    rw [h] <;> first
      | exact pinInv_strategy env i
      | { show (pinInv env i).strategy = _; exact pinInv_strategy env i }

theorem getEndpoint_src (env : Env) (n : Nat) (i : Invocation) :
    (getEndpoint env n i).1.sourceMicroService = i.sourceMicroService := by
  rcases getEndpoint_fst_cases env n i with h | ⟨ins, _, h⟩ <;> rw [h] <;>
    first
      | exact pinInv_src env i
      | { show (pinInv env i).sourceMicroService = _; exact pinInv_src env i }

theorem getEndpoint_dst (env : Env) (n : Nat) (i : Invocation) :
    (getEndpoint env n i).1.microServiceName = i.microServiceName := by
  rcases getEndpoint_fst_cases env n i with h | ⟨ins, _, h⟩ <;> rw [h] <;>
    first
      | exact pinInv_dst env i
      | { show (pinInv env i).microServiceName = _; exact pinInv_dst env i }

theorem getEndpoint_filters (env : Env) (n : Nat) (i : Invocation) :
    (getEndpoint env n i).1.filters
      = (if i.filters = [] then env.getServerListFilters else i.filters) := by
  rcases getEndpoint_fst_cases env n i with h | ⟨ins, _, h⟩ <;> rw [h] <;>
    first
      | exact pinInv_filters env i
      | { show (pinInv env i).filters = _; exact pinInv_filters env i }

theorem resolvedProto_of_ne (env : Env) (i : Invocation) (ins : Instance)
    (h : i.protocol ≠ "") : resolvedProto env i ins = i.protocol := by
  rw [resolvedProto]
  simp [h]

theorem getEndpoint_protocol_pinned (env : Env) (n : Nat) (i : Invocation)
    (h : i.protocol ≠ "") : (getEndpoint env n i).1.protocol = i.protocol := by
  rcases getEndpoint_fst_cases env n i with hc | ⟨ins, _, hc⟩
  · rw [hc]; exact pinInv_protocol env i
  · rw [hc]
    show resolvedProto env (pinInv env i) ins = i.protocol
    have hp : (pinInv env i).protocol ≠ "" := by rw [pinInv_protocol]; exact h
    rw [resolvedProto_of_ne env (pinInv env i) ins hp, pinInv_protocol]

theorem getEndpoint_protocol_resolved (env : Env) (n : Nat) (i i2 : Invocation) (ins : Instance)
    (h : selectInstance env n i = (i2, GoResult.ok ins)) :
    (getEndpoint env n i).1.protocol = resolvedProto env i2 ins := by
  rw [getEndpoint, h]
  simp only []
  rw [resolveEndpoint_fst]

-- C8 machinery: every advance in a retry run happens at the captured index.

theorem retryAdvance_eq (env : Env) (h0 : Nat) (ep : String) (st : RunState) :
    retryAdvance env h0 ep st =
      (⟨{ st.inv with endpoint := ep }, env.chainIdxAfter st.advCount,
        (match env.chainResp st.advCount with | some r => some r | none => st.invResp),
        st.advCount + 1,
        st.trace ++ [Event.advance h0 ep (env.chainResp st.advCount)]⟩,
       respErrOf (env.chainResp st.advCount)) := rfl

theorem innerRetry_advancesAt (env : Env) (h0 : Nat) (ep : String) :
    ∀ (r : Nat) (st : RunState), st.trace.all (advancesAtB h0) = true →
    (innerRetry env h0 ep r st).1.trace.all (advancesAtB h0) = true := by
  intro r
  induction r with
  | zero => intro st h; exact h
  | succ rr ih =>
    intro st h
    rw [innerRetry, retryAdvance_eq]
    have hall : (st.trace ++ [Event.advance h0 ep (env.chainResp st.advCount)]).all
        (advancesAtB h0) = true := by
      rw [List.all_append, h]
      simp [advancesAtB]
    cases hresp : respErrOf (env.chainResp st.advCount) with
    | none => simpa using hall
    | some e =>
      cases e with
      | mk m =>
        simp only []
        exact ih _ hall
      | permanent e2 => simpa using hall

theorem innerRetry_inv (env : Env) (h0 : Nat) (ep : String) :
    ∀ (r : Nat) (st : RunState),
    (innerRetry env h0 ep r st).1.inv = st.inv ∨
    (innerRetry env h0 ep r st).1.inv = { st.inv with endpoint := ep } := by
  intro r
  induction r with
  | zero => intro st; left; rfl
  | succ rr ih =>
    intro st
    rw [innerRetry, retryAdvance_eq]
    cases hresp : respErrOf (env.chainResp st.advCount) with
    | none => right; rfl
    | some e =>
      cases e with
      | mk m =>
        simp only []
        rcases ih (⟨{ st.inv with endpoint := ep }, env.chainIdxAfter st.advCount,
            (match env.chainResp st.advCount with | some r => some r | none => st.invResp),
            st.advCount + 1,
            st.trace ++ [Event.advance h0 ep (env.chainResp st.advCount)]⟩ : RunState)
          with hc | hc
        · right; rw [hc]
        · right; rw [hc]
      | permanent e2 => right; rfl

theorem innerRetry_selects (env : Env) (h0 : Nat) (ep : String) :
    ∀ (r : Nat) (st : RunState) (s : String) (res : GoResult String),
    Event.select s res ∈ (innerRetry env h0 ep r st).1.trace →
    Event.select s res ∈ st.trace := by
  intro r
  induction r with
  | zero => intro st s res h; exact h
  | succ rr ih =>
    intro st s res h
    rw [innerRetry, retryAdvance_eq] at h
    cases hresp : respErrOf (env.chainResp st.advCount) with
    | none =>
      rw [hresp] at h
      simp only [] at h
      rcases List.mem_append.mp h with hc | hc
      · exact hc
      · simp at hc
    | some e =>
      rw [hresp] at h
      cases e with
      | mk m =>
        simp only [] at h
        have := ih _ s res h
        rcases List.mem_append.mp this with hc | hc
        · exact hc
        · simp at hc
      | permanent e2 =>
        simp only [] at h
        rcases List.mem_append.mp h with hc | hc
        · exact hc
        · simp at hc

theorem outerLoop_advancesAt (env : Env) (h0 m : Nat) :
    ∀ (rounds selCount : Nat) (st : RunState), st.trace.all (advancesAtB h0) = true →
    (outerLoop env h0 m rounds selCount st).1.trace.all (advancesAtB h0) = true := by
  intro rounds
  induction rounds with
  | zero => intro selCount st h; exact h
  | succ rr ih =>
    intro selCount st h
    rcases hge : getEndpoint env selCount st.inv with ⟨i2, r⟩
    cases r with
    | crash =>
      rw [outerLoop, hge]
      simp only []
      rw [List.all_append, h]
      simp [advancesAtB]
    | error e =>
      rw [outerLoop, hge]
      simp only []
      rw [List.all_append, h]
      simp [advancesAtB]
    | ok ep =>
      rw [outerLoop, hge]
      simp only []
      set st1 : RunState :=
        ⟨i2, st.handlerIndex, st.invResp, st.advCount,
          st.trace ++ [Event.select i2.strategy (GoResult.ok ep)]⟩ with hst1
      have hall1 : st1.trace.all (advancesAtB h0) = true := by
        rw [hst1]
        simp only []
        rw [List.all_append, h]
        simp [advancesAtB]
      have hinner := innerRetry_advancesAt env h0 ep (m + 1) st1 hall1
      rcases hi : innerRetry env h0 ep (m + 1) st1 with ⟨st2, r2⟩
      rw [hi] at hinner
      cases r2 with
      | none => exact hinner
      | some e2 => exact ih (selCount + 1) st2 hinner

/-- Claim C8: in retry mode every chain advance of the whole run - every
attempt of every round - is performed with the chain's handler index reset to
the value captured before the retry sequence began. -/
theorem lb_chain_position_reset (env : Env) (i : Invocation) (h0 : Nat) :
    (handleWithRetry env i h0).1.trace.all (advancesAtB h0) = true := by
  rw [handleWithRetry]
  have houter := outerLoop_advancesAt env h0
    (env.getRetryOnSame i.sourceMicroService i.microServiceName)
    (env.getRetryOnNext i.sourceMicroService i.microServiceName + 1) 0 (initState i h0)
    (by simp [initState])
  rcases ho : outerLoop env h0 (env.getRetryOnSame i.sourceMicroService i.microServiceName)
      (env.getRetryOnNext i.sourceMicroService i.microServiceName + 1) 0 (initState i h0)
    with ⟨st, oc⟩
  rw [ho] at houter
  cases oc with
  | finished =>
    simp only []
    rw [List.all_append, houter]
    simp [advancesAtB]
  | early => exact houter
  | crashed => exact houter

theorem outerLoop_select_names (env : Env) (h0 m : Nat) (src dst d : String)
    (hd : env.getStrategyName src dst = d) :
    ∀ (rounds selCount : Nat) (st : RunState),
    st.inv.sourceMicroService = src → st.inv.microServiceName = dst →
    (st.inv.strategy = "" ∨ st.inv.strategy = d) →
    (∀ s res, Event.select s res ∈ st.trace → s = d) →
    ∀ s res, Event.select s res ∈ (outerLoop env h0 m rounds selCount st).1.trace → s = d := by
  intro rounds
  induction rounds with
  | zero => intro selCount st _ _ _ htr s res hmem; exact htr s res hmem
  | succ rr ih =>
    intro selCount st hsrc hdst hstrat htr s res hmem
    have hi2strat : (getEndpoint env selCount st.inv).1.strategy = d := by
      rw [getEndpoint_strategy, hsrc, hdst, hd]
      rcases hstrat with hc | hc
      · rw [if_pos hc]
      · rw [hc]
        split <;> rfl
    have hi2src : (getEndpoint env selCount st.inv).1.sourceMicroService = src := by
      rw [getEndpoint_src]; exact hsrc
    have hi2dst : (getEndpoint env selCount st.inv).1.microServiceName = dst := by
      rw [getEndpoint_dst]; exact hdst
    rcases hge : getEndpoint env selCount st.inv with ⟨i2, r⟩
    rw [hge] at hi2strat hi2src hi2dst
    simp only [] at hi2strat hi2src hi2dst
    cases r with
    | crash =>
      rw [outerLoop, hge] at hmem
      simp only [] at hmem
      rcases List.mem_append.mp hmem with hc | hc
      · exact htr s res hc
      · simp at hc
        exact hc.1 ▸ hi2strat
    | error e =>
      rw [outerLoop, hge] at hmem
      simp only [] at hmem
      rcases List.mem_append.mp hmem with hc | hc
      · exact htr s res hc
      · simp at hc
        exact hc.1 ▸ hi2strat
    | ok ep =>
      rw [outerLoop, hge] at hmem
      simp only [] at hmem
      set st1 : RunState :=
        ⟨i2, st.handlerIndex, st.invResp, st.advCount,
          st.trace ++ [Event.select i2.strategy (GoResult.ok ep)]⟩ with hst1
      have htr1 : ∀ s2 res2, Event.select s2 res2 ∈ st1.trace → s2 = d := by
        intro s2 res2 hmem2
        rw [hst1] at hmem2
        simp only [] at hmem2
        rcases List.mem_append.mp hmem2 with hc | hc
        · exact htr s2 res2 hc
        · simp at hc
          exact hc.1 ▸ hi2strat
      have htrI : ∀ s2 res2,
          Event.select s2 res2 ∈ (innerRetry env h0 ep (m + 1) st1).1.trace → s2 = d := by
        intro s2 res2 hmem2
        exact htr1 s2 res2 (innerRetry_selects env h0 ep (m + 1) st1 s2 res2 hmem2)
      have hinvI : (innerRetry env h0 ep (m + 1) st1).1.inv.sourceMicroService = src ∧
          (innerRetry env h0 ep (m + 1) st1).1.inv.microServiceName = dst ∧
          (innerRetry env h0 ep (m + 1) st1).1.inv.strategy = d := by
        rcases innerRetry_inv env h0 ep (m + 1) st1 with hc | hc <;>
          rw [hc] <;> exact ⟨hi2src, hi2dst, hi2strat⟩
      rcases hi : innerRetry env h0 ep (m + 1) st1 with ⟨st2, r2⟩
      rw [hi] at hmem htrI hinvI
      cases r2 with
      | none => exact htrI s res hmem
      | some e2 =>
        exact ih (selCount + 1) st2 hinvI.1 hinvI.2.1 (Or.inr hinvI.2.2) htrI s res hmem

theorem handleWithRetry_select_names (env : Env) (i : Invocation) (h0 : Nat) (d : String)
    (hempty : i.strategy = "")
    (hd : env.getStrategyName i.sourceMicroService i.microServiceName = d) :
    ∀ s res, Event.select s res ∈ (handleWithRetry env i h0).1.trace → s = d := by
  intro s res hmem
  rw [handleWithRetry] at hmem
  have houter := outerLoop_select_names env h0
    (env.getRetryOnSame i.sourceMicroService i.microServiceName)
    i.sourceMicroService i.microServiceName d hd
    (env.getRetryOnNext i.sourceMicroService i.microServiceName + 1) 0 (initState i h0)
    rfl rfl (Or.inl hempty) (by simp [initState])
  rcases ho : outerLoop env h0 (env.getRetryOnSame i.sourceMicroService i.microServiceName)
      (env.getRetryOnNext i.sourceMicroService i.microServiceName + 1) 0 (initState i h0)
    with ⟨st, oc⟩
  rw [ho] at houter hmem
  cases oc with
  | finished =>
    simp only [] at hmem
    rcases List.mem_append.mp hmem with hc | hc
    · exact houter s res hc
    · simp at hc
  | early => exact houter s res hmem
  | crashed => exact houter s res hmem

/-- Claim C9: an empty strategy name is replaced by the configured default
derived from (source, target) before resolution and pinned on the Call
Context; a non-empty name is never changed; and when the derived default is
non-empty, every selection of a retry run - including every later round -
resolves with that same pinned, non-empty name. -/
theorem lb_strategy_pinning :
    (∀ (env : Env) (k : Nat) (i : Invocation), i.strategy = "" →
      (getEndpoint env k i).1.strategy
        = env.getStrategyName i.sourceMicroService i.microServiceName) ∧
    (∀ (env : Env) (k : Nat) (i : Invocation), i.strategy ≠ "" →
      (getEndpoint env k i).1.strategy = i.strategy) ∧
    (∀ (env : Env) (i : Invocation) (h0 : Nat) (d : String), i.strategy = "" →
      env.getStrategyName i.sourceMicroService i.microServiceName = d → d ≠ "" →
      ∀ s res, Event.select s res ∈ (handleWithRetry env i h0).1.trace → s = d ∧ s ≠ "") := by
  refine ⟨?_, ?_, ?_⟩
  · intro env k i h
    rw [getEndpoint_strategy, if_pos h]
  · intro env k i h
    rw [getEndpoint_strategy, if_neg h]
  · intro env i h0 d hempty hd hne s res hmem
    have := handleWithRetry_select_names env i h0 d hempty hd s res hmem
    exact ⟨this, this ▸ hne⟩

/-- Claim C10: endpoint selection also pins filters and protocol on the Call
Context: an empty filter list is overwritten with the configuration defaults,
an empty protocol is overwritten with the resolved protocol of the picked
instance, a non-empty protocol is never changed, and after a successful
selection every later selection reuses the pinned filters and protocol
unchanged. -/
theorem lb_context_pinning :
    (∀ (env : Env) (k : Nat) (i : Invocation),
      (getEndpoint env k i).1.filters
        = (if i.filters = [] then env.getServerListFilters else i.filters)) ∧
    (∀ (env : Env) (k : Nat) (i i2 : Invocation) (ins : Instance),
      selectInstance env k i = (i2, GoResult.ok ins) →
      (getEndpoint env k i).1.protocol = resolvedProto env i2 ins) ∧
    (∀ (env : Env) (k : Nat) (i : Invocation), i.protocol ≠ "" →
      (getEndpoint env k i).1.protocol = i.protocol) ∧
    (∀ (env : Env) (k k2 : Nat) (i i2 : Invocation) (ep : String),
      getEndpoint env k i = (i2, GoResult.ok ep) →
      (getEndpoint env k2 i2).1.filters = i2.filters ∧
      (i2.protocol ≠ "" → (getEndpoint env k2 i2).1.protocol = i2.protocol)) := by
  refine ⟨?_, ?_, ?_, ?_⟩
  · intro env k i
    exact getEndpoint_filters env k i
  · intro env k i i2 ins h
    exact getEndpoint_protocol_resolved env k i i2 ins h
  · intro env k i h
    exact getEndpoint_protocol_pinned env k i h
  · intro env k k2 i i2 ep h
    have h1 : (getEndpoint env k i).1 = i2 := by rw [h]
    refine ⟨?_, fun hp => getEndpoint_protocol_pinned env k2 i2 hp⟩
    have hf2 : i2.filters = (if i.filters = [] then env.getServerListFilters else i.filters) := by
      rw [← h1, getEndpoint_filters]
    rw [getEndpoint_filters]
    by_cases hf : i2.filters = []
    · rw [if_pos hf]
      rw [hf2]
      by_cases hfi : i.filters = []
      · rw [if_pos hfi]
      · rw [if_neg hfi]
        rw [hf2, if_neg hfi] at hf
        exact absurd hf hfi
    · rw [if_neg hf]


/-! ## No-retry mode, the session resolver, and the protocol-mismatch message -/

/-- Claim C5: with retries disabled, exactly one selection happens and the chain
is advanced at most once: zero times (with the selection error delivered) when
selection fails, exactly once - with the endpoint set on the Call Context and
the chain response forwarded unchanged - when selection succeeds.  The
hypothesis excludes the nil-strategy panic (claim C2's separate concern). -/
theorem lb_no_retry_single_shot (env : Env) (i : Invocation) (h0 : Nat)
    (hnc : (getEndpoint env 0 i).2 ≠ GoResult.crash) :
    countSelect (handleWithNoRetry env i h0).1.trace = 1 ∧
    countAdv (handleWithNoRetry env i h0).1.trace ≤ 1 ∧
    ((∃ i2 e, getEndpoint env 0 i = (i2, GoResult.error e) ∧
        countAdv (handleWithNoRetry env i h0).1.trace = 0 ∧
        (handleWithNoRetry env i h0).1.trace
          = [Event.select i2.strategy (GoResult.error e), Event.deliver (writeErrResponse e)]) ∨
     (∃ i2 ep, getEndpoint env 0 i = (i2, GoResult.ok ep) ∧
        (handleWithNoRetry env i h0).1.trace
          = [Event.select i2.strategy (GoResult.ok ep), Event.advance h0 ep (env.chainResp 0),
             Event.deliver (env.chainResp 0)] ∧
        (handleWithNoRetry env i h0).1.inv.endpoint = ep)) := by
  rcases hge : getEndpoint env 0 i with ⟨i2, r⟩
  cases r with
  | crash => rw [hge] at hnc; simp at hnc
  | error e =>
    have hrun : handleWithNoRetry env i h0 =
        (⟨i2, h0, none, 0,
          [Event.select i2.strategy (GoResult.error e), Event.deliver (writeErrResponse e)]⟩,
         RunOutcome.early) := by
      rw [handleWithNoRetry, hge]
      rfl
    rw [hrun]
    refine ⟨rfl, by simp [countAdv, Event.isAdvance, List.filter], Or.inl ⟨i2, e, rfl, rfl, rfl⟩⟩
  | ok ep =>
    have hrun : handleWithNoRetry env i h0 =
        (⟨{ i2 with endpoint := ep }, env.chainIdxAfter 0, env.chainResp 0, 1,
          [Event.select i2.strategy (GoResult.ok ep), Event.advance h0 ep (env.chainResp 0),
           Event.deliver (env.chainResp 0)]⟩,
         RunOutcome.finished) := by
      rw [handleWithNoRetry, hge]
    rw [hrun]
    refine ⟨rfl, by simp [countAdv, Event.isAdvance, List.filter], Or.inr ⟨i2, ep, rfl, rfl, rfl⟩⟩

theorem splitOnSep_head (sep : Char) :
    ∀ l : List Char, ∃ t, splitOnSep sep l = beforeSep sep l :: t := by
  intro l
  induction l with
  | nil => exact ⟨[], rfl⟩
  | cons c rest ih =>
    by_cases hc : c = sep
    · refine ⟨splitOnSep sep rest, ?_⟩
      rw [splitOnSep, beforeSep]
      simp [hc]
    · obtain ⟨t, ht⟩ := ih
      refine ⟨t, ?_⟩
      rw [splitOnSep, beforeSep]
      simp only [hc, if_false, ht]

theorem splitOnSep_sep_append (sep : Char) :
    ∀ (a b : List Char), sep ∉ a →
    splitOnSep sep (a ++ sep :: b) = a :: splitOnSep sep b := by
  intro a
  induction a with
  | nil =>
    intro b _
    rw [List.nil_append, splitOnSep]
    simp
  | cons c a2 ih =>
    intro b hni
    have hc : ¬ c = sep := by
      intro h
      subst h
      exact hni (List.mem_cons_self c a2)
    have hni2 : sep ∉ a2 := fun h => hni (List.mem_cons_of_mem c h)
    rw [List.cons_append, splitOnSep]
    simp only [hc, if_false, ih b hni2]

theorem splitOnSep_no_sep (sep : Char) :
    ∀ l : List Char, sep ∉ l → splitOnSep sep l = [l] := by
  intro l
  induction l with
  | nil => intro _; rfl
  | cons c rest ih =>
    intro hni
    have hc : ¬ c = sep := by
      intro h
      subst h
      exact hni (List.mem_cons_self c rest)
    have hni2 : sep ∉ rest := fun h => hni (List.mem_cons_of_mem c h)
    rw [splitOnSep]
    simp only [hc, if_false, ih hni2]

/-- Claim C7 (amended): the session resolver returns the cookie value for
transport-native requests; for any other argument shape it returns the portion
of the generic metadata entry between the first `=` and the next `=` (or the
end of the value); and it returns the empty string, without error, when the
metadata value is empty or contains no `=`. -/
theorem lb_session_token_resolution :
    (∀ (i : Invocation) (cookies : List (String × String)), i.args = Args.restRequest cookies →
      getSessionID i = getCookie cookies lbSessionID) ∧
    (∀ (i : Invocation) (a b : List Char), i.args = Args.other →
      (getContextMetadata i.ctxMetadata lbSessionID).data = a ++ '=' :: b →
      '=' ∉ a →
      getSessionID i = String.mk (beforeSep '=' b)) ∧
    (∀ (i : Invocation), i.args = Args.other →
      '=' ∉ (getContextMetadata i.ctxMetadata lbSessionID).data →
      getSessionID i = "") := by
  refine ⟨?_, ?_, ?_⟩
  · intro i cookies h
    by_cases hv : getCookie cookies lbSessionID = "" <;>
      simp [getSessionID, h, hv]
  · intro i a b hargs hdata hni
    have hvne : getContextMetadata i.ctxMetadata lbSessionID ≠ "" := by
      intro hv
      rw [hv] at hdata
      simp at hdata
    obtain ⟨t, ht⟩ := splitOnSep_head '=' b
    have hsplit : goSplit (getContextMetadata i.ctxMetadata lbSessionID) '='
        = String.mk a :: String.mk (beforeSep '=' b) :: t.map (fun l => String.mk l) := by
      rw [goSplit, hdata, splitOnSep_sep_append '=' a b hni, ht]
      simp
    rw [getSessionID]
    simp only [hargs]
    rw [if_pos hvne, hsplit]
    simp
  · intro i hargs hni
    by_cases hv : getContextMetadata i.ctxMetadata lbSessionID = ""
    · simp [getSessionID, hargs, hv]
    · have hsplit : goSplit (getContextMetadata i.ctxMetadata lbSessionID) '='
          = [String.mk (getContextMetadata i.ctxMetadata lbSessionID).data] := by
        rw [goSplit, splitOnSep_no_sep '=' _ hni]
        rfl
      rw [getSessionID]
      simp only [hargs]
      rw [if_pos hv, hsplit]
      simp

theorem goMapEntries_mem :
    ∀ (l : List (String × String)) (kv : String × String), kv ∈ l →
    ∃ A B : List Char, (goMapEntries l).data = A ++ kv.1.data ++ B := by
  intro l
  induction l with
  | nil => intro kv h; simp at h
  | cons kv2 rest ih =>
    intro kv hmem
    rcases List.mem_cons.mp hmem with hc | hc
    · subst hc
      cases rest with
      | nil =>
        refine ⟨[], (":" ++ kv.2).data, ?_⟩
        rw [goMapEntries]
        simp [String.data_append, List.append_assoc]
      | cons kv3 rest2 =>
        refine ⟨[], (":" ++ kv.2 ++ " " ++ goMapEntries (kv3 :: rest2)).data, ?_⟩
        rw [goMapEntries]
        · simp [String.data_append, List.append_assoc]
        · simp
    · obtain ⟨A, B, hAB⟩ := ih kv hc
      cases rest with
      | nil => simp at hc
      | cons kv3 rest2 =>
        refine ⟨(kv2.1 ++ ":" ++ kv2.2 ++ " ").data ++ A, B, ?_⟩
        rw [goMapEntries]
        · simp only [String.data_append, List.append_assoc]
          rw [hAB]
          simp [String.data_append, List.append_assoc]
        · simp

theorem protoErrMsg_contains (p ms : String) (m : List (String × String)) :
    containsStr (protoErrMsg p ms m) p ∧
    containsStr (protoErrMsg p ms m) ms ∧
    (∀ kv ∈ m, containsStr (protoErrMsg p ms m) kv.1) := by
  refine ⟨?_, ?_, ?_⟩
  · refine ⟨"No available instance support [".data,
      ("] protocol," ++ " msName: " ++ ms ++ " " ++ goMapShow m).data, ?_⟩
    rw [protoErrMsg]
    simp [String.data_append, List.append_assoc]
  · refine ⟨("No available instance support [" ++ p ++ "] protocol," ++ " msName: ").data,
      (" " ++ goMapShow m).data, ?_⟩
    rw [protoErrMsg]
    simp [String.data_append, List.append_assoc]
  · intro kv hkv
    obtain ⟨A, B, hAB⟩ := goMapEntries_mem m kv hkv
    refine ⟨("No available instance support [" ++ p ++ "] protocol," ++ " msName: "
        ++ ms ++ " ").data ++ "map[".data ++ A, B ++ "]".data, ?_⟩
    rw [protoErrMsg, goMapShow]
    simp only [String.data_append, List.append_assoc]
    rw [hAB]
    simp [String.data_append, List.append_assoc]

/-- Claim C6: when the resolved protocol has no entry in the picked instance's
protocol map, selection fails with an error whose message names the resolved
protocol, the target service name and every protocol the instance supports;
and when the map is non-empty with no requested protocol, no configured
transport and no default protocol, selection resolves to one of the
instance's own endpoints without failing. -/
theorem lb_protocol_resolution :
    (∀ (env : Env) (n : Nat) (i i2 : Invocation) (ins : Instance) (p : String),
      selectInstance env n i = (i2, GoResult.ok ins) →
      p = resolvedProto env i2 ins →
      lookupAssoc ins.endpointsMap p = none →
      (getEndpoint env n i).2
        = GoResult.error (GoError.mk (protoErrMsg p i2.microServiceName ins.endpointsMap)) ∧
      containsStr (protoErrMsg p i2.microServiceName ins.endpointsMap) p ∧
      containsStr (protoErrMsg p i2.microServiceName ins.endpointsMap) i2.microServiceName ∧
      (∀ kv ∈ ins.endpointsMap,
        containsStr (protoErrMsg p i2.microServiceName ins.endpointsMap) kv.1)) ∧
    (∀ (env : Env) (n : Nat) (i i2 : Invocation) (ins : Instance),
      selectInstance env n i = (i2, GoResult.ok ins) →
      i2.protocol = "" →
      env.archaius (transportKey i2.microServiceName) = none →
      ins.defaultProtocol = "" →
      ins.endpointsMap ≠ [] →
      ∃ p ep, getEndpoint env n i = ({ i2 with protocol := p }, GoResult.ok ep) ∧
        (p, ep) ∈ ins.endpointsMap) := by
  constructor
  · intro env n i i2 ins p hsel hp hlook
    subst hp
    obtain ⟨hcp, hcm, hck⟩ :=
      protoErrMsg_contains (resolvedProto env i2 ins) i2.microServiceName ins.endpointsMap
    refine ⟨?_, hcp, hcm, hck⟩
    rw [getEndpoint, hsel]
    simp only []
    rw [resolveEndpoint]
    simp only []
    rw [hlook]
  · intro env n i i2 ins hsel hproto harch hdef hne
    obtain ⟨kv, rest, hmap⟩ : ∃ kv rest, ins.endpointsMap = kv :: rest := by
      cases hm : ins.endpointsMap with
      | nil => exact absurd hm hne
      | cons kv rest => exact ⟨kv, rest, rfl⟩
    have hres : resolvedProto env i2 ins = kv.1 := by
      rw [resolvedProto]
      simp only [hproto, if_pos rfl, harch, hdef, Option.getD_none, hmap]
      rfl
    refine ⟨kv.1, kv.2, ?_, ?_⟩
    · rw [getEndpoint, hsel]
      simp only []
      rw [resolveEndpoint]
      simp [hres, hmap, lookupAssoc]
    · rw [hmap]
      exact List.mem_cons_self kv rest


/-! ## Witness environment lemmas -/

theorem envRetry_sel_snd (cr : Nat → Option Response) (n : Nat) (i : Invocation) :
    (getEndpoint (envRetry cr) n i).2 = GoResult.ok "i1" := by
  by_cases hs : i.strategy = "" <;> by_cases hf : i.filters = [] <;>
    by_cases hp : i.protocol = "" <;>
    simp [getEndpoint, selectInstance, resolveEndpoint, resolvedProto, okInstanceFor,
      lookupAssoc, transportKey, envRetry, baseEnv, hs, hf, hp]

theorem envRetry_selOk (cr : Nat → Option Response) : selAlwaysOk (envRetry cr) := by
  intro n i
  refine ⟨(getEndpoint (envRetry cr) n i).1, "i1", ?_⟩
  rw [Prod.ext_iff]
  exact ⟨rfl, envRetry_sel_snd cr n i⟩

theorem envSelFail_sel_ok (failAt j : Nat) (hj : j < failAt) (i : Invocation) :
    (getEndpoint (envSelFail failAt) j i).2 = GoResult.ok "i1" := by
  by_cases hs : i.strategy = "" <;> by_cases hf : i.filters = [] <;>
    by_cases hp : i.protocol = "" <;>
    simp [getEndpoint, selectInstance, resolveEndpoint, resolvedProto, okInstanceFor,
      lookupAssoc, transportKey, envSelFail, baseEnv, hs, hf, hp, hj]

theorem envSelFail_sel_err (failAt : Nat) (i : Invocation) :
    (getEndpoint (envSelFail failAt) failAt i).2
      = GoResult.error (GoError.mk "no instance") := by
  by_cases hs : i.strategy = "" <;> by_cases hf : i.filters = [] <;>
    simp [getEndpoint, selectInstance, resolveEndpoint, resolvedProto, okInstanceFor,
      lookupAssoc, transportKey, envSelFail, baseEnv, hs, hf, GoError.message]

theorem pair_of_snd {α β : Type} (p : α × β) (b : β) (h : p.2 = b) : p = (p.1, b) := by
  rw [Prod.ext_iff]
  exact ⟨rfl, h⟩



/-! ## Remaining claim theorems, counterexample and witnesses -/

/-- Claim C2 (code bug): when the strategy registry reports NotFound, the Go
handler logs and continues, but the nil `strategyFun` is called at the
`BuildStrategy` call site, which is a runtime panic - the call crashes
instead of terminating with an error or an endpoint. -/
theorem lb_strategy_lookup_failure_crashes :
    (getEndpoint c2env 0 invA).2 = GoResult.crash ∧
    (handle c2env invA 0).2 = RunOutcome.crashed := by decide

/-- Claim C7 counterexample: for the generic metadata value
`lb-session-id=a=b` the portion after the first `=` is `a=b`, but the code
returns `a`, the portion between the first and the second `=`. -/
theorem lb_session_after_first_eq_cex :
    getSessionID invAB = "a" ∧ getSessionID invAB ≠ "a=b" := by decide

/-- Witness for C1 at n = m = 1: four advances, one delivery of the last
error. -/
theorem lb_retry_exhaustion_witness :
    (handleWithRetry (envRetry fun _ => failResp) invA 3).2 = RunOutcome.finished ∧
    countAdv (handleWithRetry (envRetry fun _ => failResp) invA 3).1.trace = 4 ∧
    (handleWithRetry (envRetry fun _ => failResp) invA 3).1.trace.getLast?
      = some (Event.deliver failResp) := by
  have h := lb_retry_exhaustion (envRetry fun _ => failResp) invA 3 1 1 rfl rfl
    (envRetry_selOk _) (fun k => ⟨⟨some (GoError.mk "boom")⟩, "boom", rfl, rfl⟩)
  exact ⟨h.1, h.2.1, h.2.2.2⟩

/-- Witness for C3: two failures then a success at advance 2 stop the run
after three advances and two rounds. -/
theorem lb_retry_stops_on_success_witness :
    (handleWithRetry (envRetry succResp) invA 3).2 = RunOutcome.finished ∧
    countAdv (handleWithRetry (envRetry succResp) invA 3).1.trace = 3 ∧
    countSelect (handleWithRetry (envRetry succResp) invA 3).1.trace = 2 ∧
    countDeliver (handleWithRetry (envRetry succResp) invA 3).1.trace = 1 ∧
    (handleWithRetry (envRetry succResp) invA 3).1.trace.getLast?
      = some (Event.deliver (some ⟨none⟩)) := by
  have h := lb_retry_stops_on_success (envRetry succResp) invA 3 1 1 2 rfl rfl
    (envRetry_selOk _)
    (fun l hl => ⟨⟨some (GoError.mk "boom")⟩, "boom", by
        simp [envRetry, succResp, baseEnv, hl, failResp], rfl⟩)
    ⟨⟨none⟩, rfl, rfl⟩ (by omega)
  exact ⟨h.1, h.2.1, h.2.2.1, h.2.2.2.1, h.2.2.2.2⟩

/-- Witness for C4: selection fails at round 1 after one full failing round -
two advances, two selections, one delivery of the selection error. -/
theorem lb_selection_failure_aborts_witness :
    (handleWithRetry (envSelFail 1) invA 3).2 = RunOutcome.early ∧
    countAdv (handleWithRetry (envSelFail 1) invA 3).1.trace = 2 ∧
    countSelect (handleWithRetry (envSelFail 1) invA 3).1.trace = 2 ∧
    countDeliver (handleWithRetry (envSelFail 1) invA 3).1.trace = 1 ∧
    (handleWithRetry (envSelFail 1) invA 3).1.trace.getLast?
      = some (Event.deliver (writeErrResponse (GoError.mk "no instance"))) := by
  have h := lb_selection_failure_aborts (envSelFail 1) invA 3 1 1 1 (GoError.mk "no instance")
    rfl rfl
    (fun j hj i2 => ⟨(getEndpoint (envSelFail 1) j i2).1, "i1",
      pair_of_snd _ _ (envSelFail_sel_ok 1 j hj i2)⟩)
    (fun i2 => ⟨(getEndpoint (envSelFail 1) 1 i2).1,
      pair_of_snd _ _ (envSelFail_sel_err 1 i2)⟩)
    (fun l hl => ⟨⟨some (GoError.mk "boom")⟩, "boom", rfl, rfl⟩)
    (by omega)
  exact ⟨h.1, h.2.1, h.2.2.1, h.2.2.2.1, h.2.2.2.2⟩

/-- Witness for C5 in a benign environment. -/
theorem lb_no_retry_single_shot_witness :
    countSelect (handleWithNoRetry baseEnv invA 0).1.trace = 1 ∧
    countAdv (handleWithNoRetry baseEnv invA 0).1.trace ≤ 1 := by
  have h := lb_no_retry_single_shot baseEnv invA 0 (by decide)
  exact ⟨h.1, h.2.1⟩

/-- Witness for C6 on the spec's example instance: requesting udp against an
http/grpc instance yields the descriptive error, and requesting nothing
resolves to one of the instance's own endpoints. -/
theorem lb_protocol_resolution_witness :
    ((getEndpoint envP 0 iUdp).2
        = GoResult.error (GoError.mk (protoErrMsg "udp" "dst" insHG.endpointsMap)) ∧
      containsStr (protoErrMsg "udp" "dst" insHG.endpointsMap) "udp" ∧
      containsStr (protoErrMsg "udp" "dst" insHG.endpointsMap) "dst" ∧
      (∀ kv ∈ insHG.endpointsMap,
        containsStr (protoErrMsg "udp" "dst" insHG.endpointsMap) kv.1)) ∧
    (∃ p ep, getEndpoint envP 0 invA = ({ i2A with protocol := p }, GoResult.ok ep) ∧
      (p, ep) ∈ insHG.endpointsMap) := by
  constructor
  · exact lb_protocol_resolution.1 envP 0 iUdp i2Udp insHG "udp"
      (by decide) (by decide) (by decide)
  · exact lb_protocol_resolution.2 envP 0 invA i2A insHG (by decide) rfl rfl rfl (by decide)

/-- Witness for C7 on the spec's three examples. -/
theorem lb_session_token_resolution_witness :
    getSessionID invCookie = "abc" ∧ getSessionID invXyz = "xyz" ∧ getSessionID invA = "" := by
  refine ⟨?_, ?_, ?_⟩
  · have h := lb_session_token_resolution.1 invCookie [("lb-session-id", "abc")] rfl
    rw [h]; decide
  · have h := lb_session_token_resolution.2.1 invXyz "lb-session-id".data "xyz".data rfl
      (by decide) (by decide)
    rw [h]; decide
  · exact lb_session_token_resolution.2.2 invA rfl (by decide)

/-- Witness for C9: the derived default is pinned on a fresh invocation, a
pinned name is kept, and the run's select events carry the pinned name. -/
theorem lb_strategy_pinning_witness :
    (getEndpoint baseEnv 0 invA).1.strategy = "RoundRobin" ∧
    (getEndpoint baseEnv 0 invPinned).1.strategy = "Random" ∧
    (("RoundRobin" : String) = "RoundRobin" ∧ ("RoundRobin" : String) ≠ "") := by
  refine ⟨?_, ?_, ?_⟩
  · exact lb_strategy_pinning.1 baseEnv 0 invA rfl
  · exact lb_strategy_pinning.2.1 baseEnv 0 invPinned (by decide)
  · exact lb_strategy_pinning.2.2 baseEnv invA 0 "RoundRobin" rfl rfl (by decide)
      "RoundRobin" (GoResult.ok "i1") (by decide)

/-- Witness for C10: filters and protocol are pinned on the first selection
and reused unchanged by a later selection on the pinned context. -/
theorem lb_context_pinning_witness :
    (getEndpoint baseEnv 0 invA).1.filters = ["zone"] ∧
    (getEndpoint baseEnv 0 invA).1.protocol = "http" ∧
    (getEndpoint baseEnv 0 iUdp).1.protocol = "udp" ∧
    ((getEndpoint baseEnv 5 i2ok).1.filters = i2ok.filters ∧
      (i2ok.protocol ≠ "" → (getEndpoint baseEnv 5 i2ok).1.protocol = i2ok.protocol)) := by
  refine ⟨?_, ?_, ?_, ?_⟩
  · exact lb_context_pinning.1 baseEnv 0 invA
  · exact lb_context_pinning.2.1 baseEnv 0 invA i2A (okInstanceFor "") (by decide)
  · exact lb_context_pinning.2.2.1 baseEnv 0 iUdp (by decide)
  · exact lb_context_pinning.2.2.2 baseEnv 0 5 invA i2ok "i1" (by decide)

end LB
